import Mathlib

/-!
# Verification of the CV_Screen_AI hybrid-search stack

Shallow embedding of the search services of the repository
(`app/services/search/rrf.py`, `app/services/search/bm25.py`,
`app/services/search/query_expansion.py`, `app/services/search/hybrid.py`,
`app/services/chat/rag_chain.py`, `app/services/utils/cache.py`).

Modelling conventions:
* Python floats are modelled as exact rationals (`ℚ`); `np.log` is modelled
  as the real logarithm in theorem statements and, where an executable index
  has to be built, as an explicit function parameter `lg : ℚ → ℚ`.
* Python dicts (which preserve insertion order) are modelled as association
  lists; a new key is appended at the end, an update keeps the position.
* `list.sort(key=…, reverse=True)` is a stable descending sort; it is
  modelled with `List.insertionSort` on the reversed order, which is the
  unique stable sort for that order.
* External effects (the OpenAI client, the pgvector search that lives
  outside this tree, Redis) are modelled as explicit oracle parameters.
-/

namespace CVScreenAI

/-! ## `rrf.py`: Reciprocal Rank Fusion -/

/-- `RRFResult` dataclass from `rrf.py` (the `content`/`metadata` payload
fields, which no claim mentions, are omitted). -/
structure RRFResult where
  doc_id : String
  candidate_id : String
  combined_score : ℚ
  keyword_rank : Option ℕ := none
  semantic_rank : Option ℕ := none
  keyword_score : Option ℚ := none
  semantic_score : Option ℚ := none
deriving DecidableEq, Repr

/-- One value of the `doc_data` dict built inside `RRFMerger.merge`. -/
structure DocData where
  candidate_id : String
  rrf_score : ℚ
  keyword_rank : Option ℕ := none
  keyword_score : Option ℚ := none
  semantic_rank : Option ℕ := none
  semantic_score : Option ℚ := none
deriving DecidableEq, Repr

/-- The `doc_data` dict: an insertion-ordered association list. -/
abbrev DocTable := List (String × DocData)

def dtKeys (t : DocTable) : List String := t.map (·.1)

/-- Update the entry of key `d` in place (Python dict value assignment). -/
def updEntry (f : DocData → DocData) (d : String) : DocTable → DocTable
  | [] => []
  | e :: rest => if e.1 = d then (e.1, f e.2) :: rest else e :: updEntry f d rest

/-- `if doc_id not in doc_data: doc_data[doc_id] = {candidate_id: cand, rrf_score: 0.0}`;
a fresh key is appended at the end, as in a Python dict. -/
def ensureKey (d c : String) (t : DocTable) : DocTable :=
  if d ∈ dtKeys t then t else t ++ [(d, { candidate_id := c, rrf_score := 0 })]

def dtLookup (t : DocTable) (d : String) : Option DocData :=
  (t.find? (fun e => e.1 == d)).map (·.2)

def dtScore (t : DocTable) (d : String) : ℚ :=
  ((dtLookup t d).map (·.rrf_score)).getD 0

/-- Field update performed by the BM25 loop of `RRFMerger.merge`:
`keyword_rank`, `keyword_score` and `rrf_score += 1/(k + rank)`. -/
def bmUpd (k : ℕ) (rank : ℕ) (score : ℚ) (dd : DocData) : DocData :=
  { dd with keyword_rank := some rank, keyword_score := some score,
            rrf_score := dd.rrf_score + 1 / ((k : ℚ) + rank) }

/-- Field update performed by the vector loop of `RRFMerger.merge`. -/
def vecUpd (k : ℕ) (rank : ℕ) (score : ℚ) (dd : DocData) : DocData :=
  { dd with semantic_rank := some rank, semantic_score := some score,
            rrf_score := dd.rrf_score + 1 / ((k : ℚ) + rank) }

/-- One `for rank, (doc_id, cand_id, score) in enumerate(results, 1)` loop of
`RRFMerger.merge`, with the per-entry field update abstracted as `g`
(instantiated with `bmUpd` for the BM25 pass and `vecUpd` for the vector
pass). `rank` starts at 1. -/
def rrfProcess (g : ℕ → ℚ → DocData → DocData) :
    ℕ → List (String × String × ℚ) → DocTable → DocTable
  | _, [], t => t
  | rank, e :: rest, t =>
      rrfProcess g (rank + 1) rest (updEntry (g rank e.2.2) e.1 (ensureKey e.1 e.2.1 t))

/-- The fully processed `doc_data` dict of `RRFMerger.merge`: the BM25 loop
runs first, then the vector loop, both with `rank` enumerated from 1. -/
def rrfTable (k : ℕ) (bm25_results vector_results : List (String × String × ℚ)) : DocTable :=
  rrfProcess (vecUpd k) 1 vector_results (rrfProcess (bmUpd k) 1 bm25_results [])

/-- The `RRFResult(...)` constructed from one `doc_data` item in the result
building loop of `RRFMerger.merge`. -/
def rrfEntry (e : String × DocData) : RRFResult :=
  { doc_id := e.1, candidate_id := e.2.candidate_id, combined_score := e.2.rrf_score,
    keyword_rank := e.2.keyword_rank, semantic_rank := e.2.semantic_rank,
    keyword_score := e.2.keyword_score, semantic_score := e.2.semantic_score }

/-- `RRFMerger.merge` (`rrf.py` lines 60-123): process the BM25 list, then
the vector list, then emit the dict entries in insertion order and sort by
`combined_score` descending (stable, as Python's `list.sort`). -/
def RRFMerger.merge (k : ℕ) (bm25_results vector_results : List (String × String × ℚ)) :
    List RRFResult :=
  ((rrfTable k bm25_results vector_results).map rrfEntry).insertionSort
    (fun a b => b.combined_score ≤ a.combined_score)

/-- 0-based index of the first element of `l` satisfying `p`. -/
def firstIdx (p : α → Bool) : List α → Option ℕ
  | [] => none
  | x :: xs => if p x then some 0 else (firstIdx p xs).map (· + 1)

/-- 1-based rank of doc `d` in a ranked result list. -/
def rankOf (l : List (String × String × ℚ)) (d : String) : Option ℕ :=
  (firstIdx (fun e => e.1 == d) l).map (· + 1)

/-- The RRF contribution `1/(k + rank)` of one list, `0` if the doc is absent. -/
def rankContrib (k : ℕ) (l : List (String × String × ℚ)) (d : String) : ℚ :=
  match rankOf l d with
  | some r => 1 / ((k : ℚ) + r)
  | none => 0

/-- Generalisation of `rankContrib` to a loop starting at rank `r`. -/
def contribFrom (k r : ℕ) (l : List (String × String × ℚ)) (d : String) : ℚ :=
  match firstIdx (fun e => e.1 == d) l with
  | some i => 1 / ((k : ℚ) + r + i)
  | none => 0

/-! ## Candidate-level aggregation (`rrf.py` `merge_candidate_level`,
`hybrid.py` `_build_search_results`) -/

/-- `candidate_scores[cand] += score` on a `defaultdict(float)`: a missing
key starts at `0.0`; fresh keys are appended in insertion order. -/
def upsertAdd (c : String) (s : ℚ) : List (String × ℚ) → List (String × ℚ)
  | [] => [(c, 0 + s)]
  | e :: rest => if e.1 = c then (e.1, e.2 + s) :: rest else e :: upsertAdd c s rest

/-- The aggregation loop of `RRFMerger.merge_candidate_level`. -/
def rrfAggregate : List RRFResult → List (String × ℚ) → List (String × ℚ)
  | [], acc => acc
  | r :: rest, acc => rrfAggregate rest (upsertAdd r.candidate_id r.combined_score acc)

/-- `RRFMerger.merge_candidate_level` (`rrf.py` lines 163-196): document-level
RRF, then sum the RRF scores of each candidate's chunks, then sort by total
score descending. -/
def RRFMerger.merge_candidate_level (k : ℕ)
    (bm25_results vector_results : List (String × String × ℚ)) : List (String × ℚ) :=
  (rrfAggregate (RRFMerger.merge k bm25_results vector_results) []).insertionSort
    (fun a b => b.2 ≤ a.2)

/-- `by_candidate[cand].append(rrf)` grouping of `_build_search_results`:
fresh candidates appended in first-appearance order, each group keeps the
RRF entries in list order. -/
def upsertAppend (c : String) (r : RRFResult) :
    List (String × List RRFResult) → List (String × List RRFResult)
  | [] => [(c, [r])]
  | e :: rest => if e.1 = c then (e.1, e.2 ++ [r]) :: rest else e :: upsertAppend c r rest

/-- The grouping loop of `_build_search_results`. -/
def groupByCandidate : List RRFResult →
    List (String × List RRFResult) → List (String × List RRFResult)
  | [], acc => acc
  | r :: rest, acc => groupByCandidate rest (upsertAppend r.candidate_id r acc)

/-- Scoring core of `HybridSearchEngine._build_search_results` (`hybrid.py`
lines 286-368): group the fused entries by candidate, give each candidate
`combined_score = sum(c.combined_score for c in chunks)` and sort the
results by that score descending. The presentation payload of each
`SearchResult` (full name, chunk matches, best ranks), which is filled from
the external vector-search lookups and which no claim quantifies over, is
not modelled. -/
def buildCandidateScores (rrf_results : List RRFResult) : List (String × ℚ) :=
  ((groupByCandidate rrf_results []).map
      (fun e => (e.1, (e.2.map (·.combined_score)).sum))).insertionSort
    (fun a b => b.2 ≤ a.2)

/-- Value of key `c` in a `defaultdict(float)`-style table, `0` if absent. -/
def qLookup (t : List (String × ℚ)) (c : String) : ℚ :=
  ((t.find? (fun e => e.1 == c)).map (·.2)).getD 0

def qKeys (t : List (String × ℚ)) : List String := t.map (·.1)

/-- Sum of the fused scores of the entries owned by candidate `c`. -/
def sumScores (l : List RRFResult) (c : String) : ℚ :=
  ((l.filter (fun r => r.candidate_id == c)).map (·.combined_score)).sum

def gLookup (t : List (String × List RRFResult)) (c : String) : List RRFResult :=
  ((t.find? (fun e => e.1 == c)).map (·.2)).getD []

def gKeys (t : List (String × List RRFResult)) : List String := t.map (·.1)

/-! ## Python string primitives

ASCII models of the Python string methods used by `bm25.py` and
`query_expansion.py` (`str.lower`, `str.title`, `str.strip`, `str.replace`,
substring `in`, `str.split`).  Case mapping and the `\w` word class are
modelled on the ASCII range; the concrete inputs evaluated in this file are
ASCII, where the model agrees with Python exactly. -/

/-- `str.lower` on one character (ASCII table). -/
def pyLowerChar (c : Char) : Char :=
  match c with
  | 'A' => 'a' | 'B' => 'b' | 'C' => 'c' | 'D' => 'd' | 'E' => 'e' | 'F' => 'f'
  | 'G' => 'g' | 'H' => 'h' | 'I' => 'i' | 'J' => 'j' | 'K' => 'k' | 'L' => 'l'
  | 'M' => 'm' | 'N' => 'n' | 'O' => 'o' | 'P' => 'p' | 'Q' => 'q' | 'R' => 'r'
  | 'S' => 's' | 'T' => 't' | 'U' => 'u' | 'V' => 'v' | 'W' => 'w' | 'X' => 'x'
  | 'Y' => 'y' | 'Z' => 'z'
  | _ => c

/-- `str.upper` on one character (ASCII table). -/
def pyUpperChar (c : Char) : Char :=
  match c with
  | 'a' => 'A' | 'b' => 'B' | 'c' => 'C' | 'd' => 'D' | 'e' => 'E' | 'f' => 'F'
  | 'g' => 'G' | 'h' => 'H' | 'i' => 'I' | 'j' => 'J' | 'k' => 'K' | 'l' => 'L'
  | 'm' => 'M' | 'n' => 'N' | 'o' => 'O' | 'p' => 'P' | 'q' => 'Q' | 'r' => 'R'
  | 's' => 'S' | 't' => 'T' | 'u' => 'U' | 'v' => 'V' | 'w' => 'W' | 'x' => 'X'
  | 'y' => 'Y' | 'z' => 'Z'
  | _ => c

/-- The whitespace class of `str.strip` / `str.split`. -/
def pySpaceChar (c : Char) : Bool :=
  c = ' ' || c = '\t' || c = '\n' || c = '\r' || c = '\x0b' || c = '\x0c'

/-- A cased character (ASCII), as used by `str.title` word boundaries. -/
def pyCasedChar (c : Char) : Bool :=
  ('a' ≤ c && c ≤ 'z') || ('A' ≤ c && c ≤ 'Z')

/-- The regex `\w` class of `re.sub(r"[^\w\s]", " ", text)` (ASCII model:
letters, digits, underscore). -/
def pyWordChar (c : Char) : Bool :=
  ('a' ≤ c && c ≤ 'z') || ('A' ≤ c && c ≤ 'Z') || ('0' ≤ c && c ≤ '9') || c = '_'

def pyLowerL (l : List Char) : List Char := l.map pyLowerChar

def pyLowerS (s : String) : String := ⟨pyLowerL s.data⟩

/-- `str.strip()` on a character list: drop whitespace from both ends. -/
def pyStripL (l : List Char) : List Char :=
  (((l.dropWhile pySpaceChar).reverse.dropWhile pySpaceChar)).reverse

def pyStripS (s : String) : String := ⟨pyStripL s.data⟩

/-- `str.title` body: uppercase a cased character after a non-cased one,
lowercase the other cased characters. -/
def pyTitleGo : Bool → List Char → List Char
  | _, [] => []
  | prevCased, c :: t =>
      if pyCasedChar c then
        (if prevCased then pyLowerChar c else pyUpperChar c) :: pyTitleGo true t
      else c :: pyTitleGo false t

def pyTitleS (s : String) : String := ⟨pyTitleGo false s.data⟩

/-- Is `n` a prefix of `h`? (helper for substring search). -/
def pyLeads : List Char → List Char → Bool
  | [], _ => true
  | _ :: _, [] => false
  | a :: as, b :: bs => a = b && pyLeads as bs

/-- Python's substring test `n in h`. -/
def pyContainsL (n : List Char) : List Char → Bool
  | [] => n.isEmpty
  | c :: t => pyLeads n (c :: t) || pyContainsL n t

def pyContainsS (n h : String) : Bool := pyContainsL n.data h.data

/-- `str.replace(old, new)`: replace all non-overlapping occurrences, left to
right.  Fuel-driven recursion; `s.length` fuel is enough because every step
consumes at least one character when `old` is non-empty (every call site in
the embedded code passes a non-empty `old`). -/
def pyReplaceGo (old new : List Char) : ℕ → List Char → List Char
  | _, [] => []
  | 0, s => s
  | Nat.succ fuel, c :: t =>
      if pyLeads old (c :: t) then new ++ pyReplaceGo old new fuel ((c :: t).drop old.length)
      else c :: pyReplaceGo old new fuel t

def pyReplaceS (s old new : String) : String :=
  ⟨pyReplaceGo old.data new.data s.data.length s.data⟩

/-- `str.split()` with no separator: split on whitespace runs, no empty
tokens.  `cur` holds the current token reversed. -/
def pyWordsGo : List Char → List Char → List (List Char)
  | [], cur => if cur.isEmpty then [] else [cur.reverse]
  | c :: t, cur =>
      if pySpaceChar c then
        (if cur.isEmpty then pyWordsGo t [] else cur.reverse :: pyWordsGo t [])
      else pyWordsGo t (c :: cur)

/-! ## `bm25.py`: Okapi BM25 keyword search -/

/-- `BM25Search._tokenize`: lowercase, replace every character that is
neither a word character nor whitespace with a space, split on whitespace,
keep tokens of length at least 2. -/
def pyTokenize (text : String) : List String :=
  let lowered := pyLowerL text.data
  let cleaned := lowered.map (fun c => if pyWordChar c || pySpaceChar c then c else ' ')
  let tokens := pyWordsGo cleaned []
  (tokens.filter (fun t => 2 ≤ t.length)).map (fun t => String.mk t)

/-- `BM25Document` dataclass (`bm25.py`); the free-form `metadata` dict,
which no claim mentions, is omitted. -/
structure BM25Document where
  id : String
  candidate_id : String
  content : String
  tokens : List String := []
deriving DecidableEq, Repr

/-- The `BM25Search` object state.  `np.log` values in the `idf` table are
produced by the function parameter `lg : ℚ → ℚ` passed to
`index_documents`; the ideal real-logarithm facts are stated at theorem
level.  Defaults are those of `BM25Search.__init__`
(`k1=1.5`, `b=0.75`, `epsilon=0.25`). -/
structure BM25Search where
  k1 : ℚ := 3 / 2
  b : ℚ := 3 / 4
  epsilon : ℚ := 1 / 4
  documents : List BM25Document := []
  doc_lengths : List ℕ := []
  avgdl : ℚ := 0
  idf : List (String × ℚ) := []
  doc_freqs : List (String × ℕ) := []
  indexed : Bool := false
deriving Repr

/-- A fresh `BM25Search()` instance. -/
def BM25Search.init : BM25Search := {}

/-- `self.doc_freqs[token] = self.doc_freqs.get(token, 0) + 1`. -/
def bumpTok (tk : String) : List (String × ℕ) → List (String × ℕ)
  | [] => [(tk, 1)]
  | e :: rest => if e.1 = tk then (e.1, e.2 + 1) :: rest else e :: bumpTok tk rest

/-- One document's contribution to `doc_freqs`: each distinct token (Python
iterates `set(doc.tokens)`, whose order is irrelevant to the counts) is
counted once. -/
def addDocTokens (toks : List String) (m : List (String × ℕ)) : List (String × ℕ) :=
  toks.foldl (fun acc tk => bumpTok tk acc) m

/-- The document-frequency loop of `index_documents`. -/
def computeDocFreqs : List BM25Document → List (String × ℕ) → List (String × ℕ)
  | [], m => m
  | d :: rest, m => computeDocFreqs rest (addDocTokens d.tokens.dedup m)

/-- The argument of `np.log` in the smoothed IDF:
`(n_docs - df + 0.5) / (df + 0.5) + 1`. -/
def idfArg (n df : ℕ) : ℚ :=
  ((n : ℚ) - (df : ℚ) + 1 / 2) / ((df : ℚ) + 1 / 2) + 1

/-- `BM25Search.index_documents` (`bm25.py` lines 95-136): tokenize all
documents, compute lengths, `avgdl`, document frequencies, and the smoothed
IDF table `max(lg(idfArg), epsilon)`; set `indexed`. -/
def BM25Search.index_documents (st : BM25Search) (lg : ℚ → ℚ)
    (documents : List BM25Document) : BM25Search :=
  let docs := documents.map (fun d => { d with tokens := pyTokenize d.content })
  let doc_lengths := docs.map (fun d => d.tokens.length)
  let avgdl : ℚ :=
    if doc_lengths.isEmpty then 0
    else ((doc_lengths.sum : ℕ) : ℚ) / ((doc_lengths.length : ℕ) : ℚ)
  let doc_freqs := computeDocFreqs docs []
  let idf := doc_freqs.map (fun e => (e.1, max (lg (idfArg docs.length e.2)) st.epsilon))
  { st with documents := docs, doc_lengths := doc_lengths, avgdl := avgdl,
            doc_freqs := doc_freqs, idf := idf, indexed := true }

/-- `BM25Search.add_documents` (`bm25.py` lines 138-169): build
`BM25Document`s from the raw columns (the optional `metadata_list`, which no
claim mentions, is omitted) and call `index_documents` on them — and on them
only. -/
def BM25Search.add_documents (st : BM25Search) (lg : ℚ → ℚ)
    (doc_ids candidate_ids contents : List String) : BM25Search :=
  let documents := (doc_ids.zip (candidate_ids.zip contents)).map
    (fun p => { id := p.1, candidate_id := p.2.1, content := p.2.2 : BM25Document })
  st.index_documents lg documents

/-- Lookup in the `idf` dict, `None` when the token is not indexed. -/
def rLookup (t : List (String × ℚ)) (x : String) : Option ℚ :=
  (t.find? (fun e => e.1 == x)).map (·.2)

/-- Lookup in the `doc_freqs` dict. -/
def nLookup (t : List (String × ℕ)) (x : String) : Option ℕ :=
  (t.find? (fun e => e.1 == x)).map (·.2)

/-- `BM25Search._score_document` (`bm25.py` lines 205-238): for each query
token that is indexed and occurs in the document, add
`idf * freq*(k1+1) / (freq + k1*(1 - b + b*(doc_len/avgdl)))`.  The `tf`
dict built by the source is the token count in `doc.tokens`. -/
def BM25Search.score_document (st : BM25Search) (doc : BM25Document) (doc_len : ℕ)
    (query_tokens : List String) : ℚ :=
  query_tokens.foldl
    (fun score tk =>
      match rLookup st.idf tk with
      | none => score
      | some idfv =>
          let freq := doc.tokens.count tk
          if freq = 0 then score
          else
            score + idfv * ((freq : ℚ) * (st.k1 + 1)) /
              ((freq : ℚ) + st.k1 * (1 - st.b + st.b * ((doc_len : ℚ) / st.avgdl))))
    0

/-- The pre-truncation candidate list of `BM25Search.search`: every indexed
document is scored (`for i, doc in enumerate(self.documents)`). -/
def BM25Search.scoresAll (st : BM25Search) (query_tokens : List String) :
    List (String × String × ℚ) :=
  (st.documents.zip st.doc_lengths).map
    (fun p => (p.1.id, p.1.candidate_id, st.score_document p.1 p.2 query_tokens))

/-- `BM25Search.search` (`bm25.py` lines 171-203): empty result when not
indexed or the query tokenizes to nothing; otherwise score every document,
sort by score descending and truncate to `top_k`. -/
def BM25Search.search (st : BM25Search) (query : String) (top_k : ℕ) :
    List (String × String × ℚ) :=
  if st.indexed = false then []
  else
    let query_tokens := pyTokenize query
    if query_tokens.isEmpty then []
    else
      ((st.scoresAll query_tokens).insertionSort (fun a b => b.2.2 ≤ a.2.2)).take top_k

/-- `combined_scores[doc_id] = (cand, score)` keeping the maximum score
(`if score > combined_scores[doc_id][1]`) — the position of an existing key
is kept, a fresh key is appended. -/
def swUpsertMax (d c : String) (s : ℚ) :
    List (String × String × ℚ) → List (String × String × ℚ)
  | [] => [(d, c, s)]
  | e :: rest =>
      if e.1 = d then (if s > e.2.2 then (e.1, c, s) :: rest else e :: rest)
      else e :: swUpsertMax d c s rest

/-- The inner loop of `search_with_expansion` over one variant's results. -/
def swInner (l : List (String × String × ℚ)) (acc : List (String × String × ℚ)) :
    List (String × String × ℚ) :=
  l.foldl (fun acc e => swUpsertMax e.1 e.2.1 e.2.2 acc) acc

/-- The outer loop of `search_with_expansion`: each variant is searched with
depth `top_k * 2`. -/
def swLoop (st : BM25Search) (top_k : ℕ) :
    List String → List (String × String × ℚ) → List (String × String × ℚ)
  | [], acc => acc
  | q :: rest, acc => swLoop st top_k rest (swInner (st.search q (top_k * 2)) acc)

/-- `BM25Search.search_with_expansion` (`bm25.py` lines 240-277): merge the
per-variant results by doc id keeping the maximum score, sort descending,
truncate to `top_k`. -/
def BM25Search.search_with_expansion (st : BM25Search) (queries : List String)
    (top_k : ℕ) : List (String × String × ℚ) :=
  ((swLoop st top_k queries []).insertionSort (fun a b => b.2.2 ≤ a.2.2)).take top_k

/-- `HybridSearchEngine.update_bm25_index` (`hybrid.py` lines 394-406):
delegates to `BM25Search.add_documents`. -/
def HybridSearchEngine.update_bm25_index (st : BM25Search) (lg : ℚ → ℚ)
    (doc_ids candidate_ids contents : List String) : BM25Search :=
  st.add_documents lg doc_ids candidate_ids contents

/-- `HybridSearchEngine.add_candidate_chunks` (`hybrid.py` lines 420-452):
append the new chunks to the existing documents and re-index all of them. -/
def HybridSearchEngine.add_candidate_chunks (st : BM25Search) (lg : ℚ → ℚ)
    (chunk_ids : List String) (candidate_id : String) (contents : List String) :
    BM25Search :=
  let current_docs := st.documents
  let new_docs := (chunk_ids.zip contents).map
    (fun p => { id := p.1, candidate_id := candidate_id, content := p.2 : BM25Document })
  st.index_documents lg (current_docs ++ new_docs)

/-- Lookup in the `combined_scores` dict of `search_with_expansion`. -/
def sLookup (t : List (String × String × ℚ)) (x : String) : Option (String × ℚ) :=
  (t.find? (fun e => e.1 == x)).map (·.2)

def sKeys (t : List (String × String × ℚ)) : List String := t.map (·.1)

/-- The scores that doc `x` obtained across a stream of ranked results. -/
def occScores (l : List (String × String × ℚ)) (x : String) : List ℚ :=
  (l.filter (fun e => e.1 == x)).map (·.2.2)

/-- Left fold of `if s > m then s else m` — the running maximum kept by
`search_with_expansion`. -/
def foldMax (a : ℚ) (l : List ℚ) : ℚ :=
  l.foldl (fun m s => if s > m then s else m) a

/-! ## `query_expansion.py`: LLM query expansion with rule fallback -/

/-- The `title_mappings` dict of `_fallback_expansion`, in insertion order. -/
def titleMappings : List (String × List String) :=
  [("developer", ["engineer", "programmer", "lập trình viên"]),
   ("engineer", ["developer", "specialist", "kỹ sư"]),
   ("manager", ["lead", "director", "quản lý"]),
   ("senior", ["sr.", "experienced"]),
   ("junior", ["jr.", "entry-level", "fresher"])]

/-- The `vn_mappings` dict of `_fallback_expansion`, in insertion order. -/
def vnMappings : List (String × String) :=
  [("software", "phần mềm"), ("developer", "lập trình viên"), ("engineer", "kỹ sư"),
   ("manager", "quản lý"), ("data", "dữ liệu"), ("web", "web"), ("mobile", "di động")]

/-- `QueryExpander._fallback_expansion` (`query_expansion.py` lines 158-201):
rule-based variations from `title_mappings`
(`query_lower.replace(key, exp).title()` for each matching key) followed by
a Vietnamese variant built by folding `vn_mappings` over
`vn_query.lower().replace(en, vn)`, appended only when it differs from the
query (case-insensitively). -/
def fallbackExpansion (query : String) : List String :=
  let query_lower := pyLowerS query
  let titleExp := titleMappings.bind (fun m =>
    if pyContainsS m.1 query_lower then
      m.2.map (fun ex => pyTitleS (pyReplaceS query_lower m.1 ex))
    else [])
  let vn_query := vnMappings.foldl (fun acc m => pyReplaceS (pyLowerS acc) m.1 m.2) query
  titleExp ++ (if pyLowerS vn_query ≠ pyLowerS query then [pyTitleS vn_query] else [])

/-- The dedup loop of `expand_query`: the seen-set records
`q.lower().strip()`, the output keeps `q.strip()`, first occurrence wins. -/
def dedupQueries : List String → List String → List String
  | [], _ => []
  | q :: rest, seen =>
      if pyStripS (pyLowerS q) ∈ seen then dedupQueries rest seen
      else pyStripS q :: dedupQueries rest (pyStripS (pyLowerS q) :: seen)

/-- Outcome of the external OpenAI client: `clientAvailable = false` models a
missing key or import failure (`self._client` is `None`);
`llmExpansions = none` models `_expand_with_llm` raising;
`some exps` models it returning the parsed expansion list. -/
structure ExpansionOracle where
  clientAvailable : Bool
  llmExpansions : Option (List String)

/-- `QueryExpander.expand_query` (`query_expansion.py` lines 87-122): start
from `[query]`, extend with the LLM expansions truncated to
`max_expansions` — or with `_fallback_expansion` when the client is missing
or raises — deduplicate case-insensitively and truncate to
`max_expansions + 1`. -/
def QueryExpander.expand_query (o : ExpansionOracle) (query : String)
    (max_expansions : ℕ) : List String :=
  let result := [query] ++
    (if o.clientAvailable then
      match o.llmExpansions with
      | some exps => exps.take max_expansions
      | none => fallbackExpansion query
    else fallbackExpansion query)
  (dedupQueries result []).take (max_expansions + 1)

/-! ## `rag_chain.py`: the 3-layer search fallback, and
`hybrid.py`/`cache.py`: the cached search wrapper -/

/-- `SearchType` enum (`schemas/search.py`). -/
inductive SearchType where
  | hybrid
  | keyword
  | semantic
deriving DecidableEq, Repr

/-- `SearchRequest` schema (`schemas/search.py`) with its field defaults. -/
structure SearchRequest where
  query : String
  keyword_query : Option String := none
  search_type : SearchType := SearchType.hybrid
  expand_query : Bool := true
  top_k : ℕ := 20
  min_experience_years : Option ℚ := none
  required_skills : List String := []
  preferred_skills : List String := []
  education_level : Option String := none
  location : Option String := none
  include_sections : List String := []
deriving DecidableEq, Repr

/-- The Layer-2 `SearchRequest(...)` built by `RAGChain._search_with_fallback`
(`rag_chain.py` lines 511-539): location dropped, experience reduced by 30%
when truthy (`None` when the original is `None` *or* `0`), skills and
`top_k` kept — and `search_type` forced to `HYBRID`, `expand_query` forced
on, every unlisted field reset to its schema default. -/
def relaxedRequest (r : SearchRequest) : SearchRequest :=
  { query := r.query
    search_type := SearchType.hybrid
    expand_query := true
    top_k := r.top_k
    location := none
    min_experience_years :=
      match r.min_experience_years with
      | some x => if x = 0 then none else some (max 0 (x * (7 / 10)))
      | none => none
    required_skills := r.required_skills }

/-- The Layer-3 `SearchRequest(...)` of `_search_with_fallback`: pure
semantic search, `top_k = 3`, all filters dropped. -/
def layer3Request (r : SearchRequest) : SearchRequest :=
  { query := r.query
    search_type := SearchType.semantic
    expand_query := true
    top_k := 3
    location := none
    min_experience_years := none
    required_skills := [] }

/-- The Layer-2 provenance note of `_search_with_fallback`. -/
def layer2Note : String :=
  "Không tìm thấy ứng viên khớp 100% tiêu chí (Layer 1). Đây là các ứng viên GẦN ĐÚNG NHẤT (đã nới lỏng tiêu chí Location/Experience)."

/-- The Layer-3 provenance note of `_search_with_fallback`. -/
def layer3Note : String :=
  "Không tìm thấy ứng viên phù hợp tiêu chí lọc. Đây là những ứng viên có nội dung hồ sơ LIÊN QUAN NHẤT theo ý nghĩa (Semantic Match)."

/-- The note returned when all three layers come back empty. -/
def noResultNote : String :=
  "Không tìm thấy dữ liệu nào, kể cả khi tra cứu ngữ nghĩa."

/-- `RAGChain._search_with_fallback` (`rag_chain.py` lines 496-557) with the
search engine abstracted as `sf` (its results stand for the processed
candidate cards; `_process_search_results` is a per-result conversion that
no claim quantifies over).  Layer 1 returns with an empty note; Layer 2 runs
only when Layer 1 is empty; Layer 3 only when Layer 2 is empty too. -/
def RAGChain.search_with_fallback {α : Type} (sf : SearchRequest → List α)
    (r : SearchRequest) : List α × String :=
  let r1 := sf r
  if r1.isEmpty = false then (r1, "")
  else
    let r2 := sf (relaxedRequest r)
    if r2.isEmpty = false then (r2, layer2Note)
    else
      let r3 := sf (layer3Request r)
      if r3.isEmpty = false then (r3, layer3Note)
      else ([], noResultNote)

/-- The response model of `HybridSearchEngine.search` restricted to the
fields a claim can quantify over; `search_time_ms` and `timestamp` are
wall-clock values and are not modelled.  `α` is the `SearchResult` payload
(serialised and restored unchanged by the cache). -/
structure SearchResponseM (α : Type) where
  query : String
  expanded_queries : List String
  search_type : SearchType
  total_results : ℕ
  results : List α
deriving DecidableEq, Repr

/-- The Redis result cache (`cache.py`): one value per key, an entry set at
`t` with `expire_seconds = 300` is readable strictly before `t + 300`.  Keys
are the full normalized request (the MD5 of its sorted JSON dump is
injective for our purposes and is modelled by the request itself). -/
abbrev ResultCache (α : Type) := List (SearchRequest × List α × ℕ)

def cacheGet {α : Type} (c : ResultCache α) (k : SearchRequest) (now : ℕ) :
    Option (List α) :=
  (c.find? (fun e => decide (e.1 = k) && decide (now < e.2.2))).map (·.2.1)

def cacheSet {α : Type} (c : ResultCache α) (k : SearchRequest) (v : List α)
    (now : ℕ) : ResultCache α :=
  (k, v, now + 300) :: c.filter (fun e => decide (e.1 ≠ k))

/-- `HybridSearchEngine.search` (`hybrid.py` lines 83-184), caching
behaviour.  The hit test is Python's `if cached_results:` (line 105): it
fires only when the cache returned a *non-empty* list — a missing key and a
cached empty list (both falsy) fall through to the pipeline, mirrored here
by `(cacheGet …).getD []` followed by the non-emptiness test.  On a hit the
cached `results` are returned immediately with `expanded_queries = []` and
`total_results = len(cached)`; otherwise the query is expanded (when
`expand_query` is set), the ranking pipeline runs — steps 1.5-3
(keyword/vector dispatch, fusion, post-filters) abstracted as `pipeline`,
since the vector module is not part of this tree — the `top_k`-truncated
results are stored under the request key with a 300 s TTL and returned with
`total_results = len(filtered_results)`.  The returned `Bool` records
whether the pipeline was invoked. -/
def HybridSearchEngine.search {α : Type}
    (pipeline : SearchRequest → List String → List α)
    (expander : String → ℕ → List String) (maxExp : ℕ)
    (cache : ResultCache α) (request : SearchRequest) (now : ℕ) :
    SearchResponseM α × ResultCache α × Bool :=
  let cached_results := (cacheGet cache request now).getD []
  if cached_results.isEmpty = false then
    ({ query := request.query, expanded_queries := [],
       search_type := request.search_type,
       total_results := cached_results.length, results := cached_results }, cache, false)
  else
    let expanded_semantic_queries :=
      if request.expand_query then expander request.query maxExp else [request.query]
    let filtered_results := pipeline request expanded_semantic_queries
    ({ query := request.query, expanded_queries := expanded_semantic_queries,
       search_type := request.search_type,
       total_results := filtered_results.length,
       results := filtered_results.take request.top_k },
     cacheSet cache request (filtered_results.take request.top_k) now, true)

/-! ### Association-table lemmas -/

theorem dtKeys_updEntry (f : DocData → DocData) (d : String) (t : DocTable) :
    dtKeys (updEntry f d t) = dtKeys t := by
  induction t with
  | nil => rfl
  | cons e rest ih =>
      by_cases h : e.1 = d
      · simp [updEntry, h, dtKeys]
      · simp only [updEntry, if_neg h, dtKeys, List.map_cons]
        simp only [dtKeys] at ih
        rw [ih]

theorem dtLookup_cons (e : String × DocData) (l : DocTable) (x : String) :
    dtLookup (e :: l) x = if e.1 = x then some e.2 else dtLookup l x := by
  by_cases h : e.1 = x
  · simp [dtLookup, List.find?, h]
  · have hb : (e.1 == x) = false := beq_eq_false_iff_ne.2 h
    simp [dtLookup, List.find?, hb, h]

theorem dtLookup_append (t l2 : DocTable) (x : String) :
    dtLookup (t ++ l2) x =
      match dtLookup t x with
      | some v => some v
      | none => dtLookup l2 x := by
  induction t with
  | nil => simp [dtLookup]
  | cons e rest ih =>
      rw [List.cons_append, dtLookup_cons, dtLookup_cons]
      by_cases he : e.1 = x <;> simp [he, ih]

theorem mem_dtKeys_ensureKey (d c x : String) (t : DocTable) :
    x ∈ dtKeys (ensureKey d c t) ↔ x ∈ dtKeys t ∨ x = d := by
  by_cases h : d ∈ dtKeys t
  · rw [ensureKey, if_pos h]
    constructor
    · exact Or.inl
    · rintro (hx | rfl)
      · exact hx
      · exact h
  · rw [ensureKey, if_neg h]
    simp [dtKeys]

theorem nodup_dtKeys_ensureKey (d c : String) (t : DocTable)
    (h : (dtKeys t).Nodup) : (dtKeys (ensureKey d c t)).Nodup := by
  by_cases hd : d ∈ dtKeys t
  · rw [ensureKey, if_pos hd]; exact h
  · rw [ensureKey, if_neg hd]
    simp only [dtKeys, List.map_append]
    simp only [dtKeys] at h hd
    simp [List.nodup_append, h, hd]

theorem dtLookup_updEntry (f : DocData → DocData) (d x : String) (t : DocTable) :
    dtLookup (updEntry f d t) x =
      if x = d then (dtLookup t d).map f else dtLookup t x := by
  induction t with
  | nil => by_cases h : x = d <;> simp [updEntry, dtLookup, h]
  | cons e rest ih =>
      rw [updEntry]
      by_cases he : e.1 = d
      · rw [if_pos he]
        by_cases hx : x = d
        · have hex : e.1 = x := he.trans hx.symm
          rw [dtLookup_cons, dtLookup_cons]
          simp [hex, hx]
        · have hex : ¬ e.1 = x := fun hh => hx ((hh.symm).trans he)
          rw [dtLookup_cons, dtLookup_cons]
          simp [hex, hx, dtLookup_cons]
      · rw [if_neg he, dtLookup_cons, dtLookup_cons, ih]
        by_cases hx : x = d
        · subst hx
          simp [dtLookup_cons, he]
        · simp [hx, dtLookup_cons]

theorem dtLookup_isSome_iff_mem (t : DocTable) (d : String) :
    (dtLookup t d).isSome ↔ d ∈ dtKeys t := by
  induction t with
  | nil => simp [dtLookup, dtKeys]
  | cons e rest ih =>
      rw [dtLookup_cons]
      by_cases he : e.1 = d
      · simp [he, dtKeys]
      · have hne : ¬ d = e.1 := fun hh => he hh.symm
        simp [he, dtKeys, hne, ih]

theorem dtLookup_ensureKey_other (d c x : String) (t : DocTable) (hx : x ≠ d) :
    dtLookup (ensureKey d c t) x = dtLookup t x := by
  by_cases hd : d ∈ dtKeys t
  · rw [ensureKey, if_pos hd]
  · rw [ensureKey, if_neg hd, dtLookup_append]
    have hdx : ¬ d = x := fun hh => hx hh.symm
    have hone : dtLookup [(d, ({ candidate_id := c, rrf_score := 0 } : DocData))] x = none := by
      rw [dtLookup_cons]
      simp [dtLookup, hdx]
    cases h : dtLookup t x <;> simp [hone, h]

theorem dtLookup_ensureKey_self (d c : String) (t : DocTable) :
    dtLookup (ensureKey d c t) d =
      some ((dtLookup t d).getD { candidate_id := c, rrf_score := 0 }) := by
  by_cases hd : d ∈ dtKeys t
  · rcases Option.isSome_iff_exists.1 ((dtLookup_isSome_iff_mem t d).2 hd) with ⟨v, hv⟩
    rw [ensureKey, if_pos hd, hv]
    rfl
  · have hnone : dtLookup t d = none :=
      Option.not_isSome_iff_eq_none.1
        (fun hs => hd ((dtLookup_isSome_iff_mem t d).1 hs))
    rw [ensureKey, if_neg hd, dtLookup_append, hnone]
    simp [dtLookup_cons, dtLookup]

theorem dtScore_step_self (g : DocData → DocData) (c0 : ℚ)
    (hg : ∀ v, (g v).rrf_score = v.rrf_score + c0) (d c : String) (t : DocTable) :
    dtScore (updEntry g d (ensureKey d c t)) d = dtScore t d + c0 := by
  simp only [dtScore, dtLookup_updEntry, if_pos rfl, dtLookup_ensureKey_self]
  cases h : dtLookup t d with
  | none => simp [hg]
  | some v => simp [hg]

theorem dtScore_step_other (g : DocData → DocData) (d c x : String) (t : DocTable)
    (hx : x ≠ d) :
    dtScore (updEntry g d (ensureKey d c t)) x = dtScore t x := by
  simp only [dtScore, dtLookup_updEntry, if_neg hx, dtLookup_ensureKey_other d c x t hx]

/-! ### Lemmas about the RRF processing loop -/

theorem mem_dtKeys_rrfProcess (g : ℕ → ℚ → DocData → DocData) :
    ∀ (l : List (String × String × ℚ)) (r : ℕ) (t : DocTable) (x : String),
      x ∈ dtKeys (rrfProcess g r l t) ↔ x ∈ dtKeys t ∨ x ∈ l.map (·.1)
  | [], r, t, x => by simp [rrfProcess]
  | e :: rest, r, t, x => by
      rw [rrfProcess, mem_dtKeys_rrfProcess g rest (r + 1) _ x]
      rw [show dtKeys (updEntry (g r e.2.2) e.1 (ensureKey e.1 e.2.1 t)) =
            dtKeys (ensureKey e.1 e.2.1 t) from dtKeys_updEntry _ _ _]
      rw [mem_dtKeys_ensureKey]
      simp [or_assoc, or_left_comm, eq_comm]

theorem nodup_dtKeys_rrfProcess (g : ℕ → ℚ → DocData → DocData) :
    ∀ (l : List (String × String × ℚ)) (r : ℕ) (t : DocTable),
      (dtKeys t).Nodup → (dtKeys (rrfProcess g r l t)).Nodup
  | [], r, t, h => h
  | e :: rest, r, t, h => by
      rw [rrfProcess]
      apply nodup_dtKeys_rrfProcess g rest (r + 1)
      rw [dtKeys_updEntry]
      exact nodup_dtKeys_ensureKey _ _ _ h

theorem dtScore_rrfProcess_not_mem (k : ℕ) (g : ℕ → ℚ → DocData → DocData) :
    ∀ (l : List (String × String × ℚ)) (r : ℕ) (t : DocTable) (d : String),
      d ∉ l.map (·.1) → dtScore (rrfProcess g r l t) d = dtScore t d
  | [], r, t, d, _ => rfl
  | e :: rest, r, t, d, h => by
      rw [rrfProcess]
      have hd : d ≠ e.1 := by
        intro hd; exact h (by simp [hd])
      rw [dtScore_rrfProcess_not_mem k g rest (r + 1) _ d (by
        intro hm; exact h (by simp [List.map_cons]; right; simpa using hm))]
      exact dtScore_step_other _ _ _ _ _ hd

theorem dtScore_rrfProcess (k : ℕ) (g : ℕ → ℚ → DocData → DocData)
    (hg : ∀ r s v, (g r s v).rrf_score = v.rrf_score + 1 / ((k : ℚ) + r)) :
    ∀ (l : List (String × String × ℚ)) (r : ℕ) (t : DocTable) (d : String),
      (l.map (·.1)).Nodup →
      dtScore (rrfProcess g r l t) d = dtScore t d + contribFrom k r l d
  | [], r, t, d, _ => by simp [rrfProcess, contribFrom, firstIdx]
  | e :: rest, r, t, d, h => by
      rw [List.map_cons, List.nodup_cons] at h
      obtain ⟨he, hrest⟩ := h
      rw [rrfProcess]
      by_cases hd : d = e.1
      · subst hd
        rw [dtScore_rrfProcess_not_mem k g rest (r + 1) _ _ he]
        rw [dtScore_step_self (g r e.2.2) (1 / ((k : ℚ) + r)) (hg r e.2.2) _ e.2.1 t]
        simp [contribFrom, firstIdx]
      · rw [dtScore_rrfProcess k g hg rest (r + 1) _ d hrest]
        rw [dtScore_step_other _ _ _ _ _ hd]
        have hne : (e.1 == d) = false := beq_eq_false_iff_ne.2 (fun hh => hd hh.symm)
        congr 1
        show contribFrom k (r + 1) rest d = contribFrom k r (e :: rest) d
        rw [contribFrom, contribFrom, firstIdx, hne]
        simp only [if_neg Bool.false_ne_true]
        cases hfi : firstIdx (fun e => e.1 == d) rest with
        | none => rfl
        | some i =>
            show (1 : ℚ) / ((k : ℚ) + ((r + 1 : ℕ) : ℚ) + (i : ℚ)) =
              1 / ((k : ℚ) + (r : ℚ) + ((i + 1 : ℕ) : ℚ))
            push_cast
            ring_nf

theorem contribFrom_one (k : ℕ) (l : List (String × String × ℚ)) (d : String) :
    contribFrom k 1 l d = rankContrib k l d := by
  rw [contribFrom, rankContrib, rankOf]
  cases h : firstIdx (fun e => e.1 == d) l with
  | none => rfl
  | some i =>
      show (1 : ℚ) / ((k : ℚ) + ((1 : ℕ) : ℚ) + (i : ℚ)) =
        1 / ((k : ℚ) + ((i + 1 : ℕ) : ℚ))
      push_cast
      ring_nf

theorem dtLookup_of_mem (t : DocTable) (d : String) (dd : DocData)
    (hnd : (dtKeys t).Nodup) (hm : (d, dd) ∈ t) : dtLookup t d = some dd := by
  induction t with
  | nil => cases hm
  | cons e rest ih =>
      rw [dtKeys, List.map_cons, List.nodup_cons] at hnd
      rcases List.mem_cons.1 hm with h | h
      · rw [← h]
        simp [dtLookup, List.find?]
      · have hd : d ∈ dtKeys rest := by
          simp only [dtKeys, List.mem_map]
          exact ⟨(d, dd), h, rfl⟩
        have hne : (e.1 == d) = false := by
          simp only [beq_eq_false_iff_ne, ne_eq]
          intro hh; rw [hh] at hnd; exact hnd.1 hd
        simp only [dtLookup, List.find?, hne]
        exact ih hnd.2 h

theorem bmUpd_rrf (k : ℕ) : ∀ (r : ℕ) (s : ℚ) (v : DocData),
    (bmUpd k r s v).rrf_score = v.rrf_score + 1 / ((k : ℚ) + r) := fun _ _ _ => rfl

theorem vecUpd_rrf (k : ℕ) : ∀ (r : ℕ) (s : ℚ) (v : DocData),
    (vecUpd k r s v).rrf_score = v.rrf_score + 1 / ((k : ℚ) + r) := fun _ _ _ => rfl

theorem map_docid_rrfEntry (t : DocTable) :
    (t.map rrfEntry).map (·.doc_id) = dtKeys t := by
  rw [List.map_map]
  rfl

theorem nodup_dtKeys_rrfTable (k : ℕ) (bm v : List (String × String × ℚ)) :
    (dtKeys (rrfTable k bm v)).Nodup :=
  nodup_dtKeys_rrfProcess _ _ _ _
    (nodup_dtKeys_rrfProcess _ _ _ _ List.nodup_nil)

theorem mem_dtKeys_rrfTable (k : ℕ) (bm v : List (String × String × ℚ)) (x : String) :
    x ∈ dtKeys (rrfTable k bm v) ↔ x ∈ bm.map (·.1) ∨ x ∈ v.map (·.1) := by
  rw [rrfTable, mem_dtKeys_rrfProcess, mem_dtKeys_rrfProcess]
  simp [dtKeys, or_comm, or_left_comm, or_assoc]

theorem dtScore_rrfTable (k : ℕ) (bm v : List (String × String × ℚ)) (d : String)
    (hb : (bm.map (·.1)).Nodup) (hv : (v.map (·.1)).Nodup) :
    dtScore (rrfTable k bm v) d = rankContrib k bm d + rankContrib k v d := by
  rw [rrfTable, dtScore_rrfProcess k (vecUpd k) (vecUpd_rrf k) v 1 _ d hv,
    dtScore_rrfProcess k (bmUpd k) (bmUpd_rrf k) bm 1 _ d hb,
    contribFrom_one, contribFrom_one]
  have h0 : dtScore [] d = 0 := rfl
  rw [h0, zero_add]

theorem merge_perm (k : ℕ) (bm v : List (String × String × ℚ)) :
    (RRFMerger.merge k bm v).Perm ((rrfTable k bm v).map rrfEntry) :=
  List.perm_insertionSort _ _

/-- **C1.** For ranked input lists (no duplicate doc ids within a list) and
any RRF constant `k`, `RRFMerger.merge` returns exactly one entry per doc id
of the union of the two lists' doc-id sets, and each entry's
`combined_score` is exactly the sum of `1/(k + rank_i)` over the lists that
contain the doc, `rank_i` being the 1-based position in list `i`. -/
theorem rrf_merge_union_and_exact_scores (k : ℕ) (bm v : List (String × String × ℚ))
    (hb : (bm.map (·.1)).Nodup) (hv : (v.map (·.1)).Nodup) :
    ((RRFMerger.merge k bm v).map (·.doc_id)).Nodup ∧
    (∀ d, d ∈ (RRFMerger.merge k bm v).map (·.doc_id) ↔
      d ∈ bm.map (·.1) ∨ d ∈ v.map (·.1)) ∧
    ∀ res ∈ RRFMerger.merge k bm v,
      res.combined_score = rankContrib k bm res.doc_id + rankContrib k v res.doc_id := by
  have hpm : ((RRFMerger.merge k bm v).map (·.doc_id)).Perm (dtKeys (rrfTable k bm v)) := by
    rw [← map_docid_rrfEntry]
    exact (merge_perm k bm v).map _
  refine ⟨?_, ?_, ?_⟩
  · exact hpm.nodup_iff.2 (nodup_dtKeys_rrfTable k bm v)
  · intro d
    rw [hpm.mem_iff, mem_dtKeys_rrfTable]
  · intro res hres
    have hres' : res ∈ (rrfTable k bm v).map rrfEntry := (merge_perm k bm v).mem_iff.1 hres
    rcases List.mem_map.1 hres' with ⟨e, he, rfl⟩
    have hlk : dtLookup (rrfTable k bm v) e.1 = some e.2 :=
      dtLookup_of_mem _ _ _ (nodup_dtKeys_rrfTable k bm v) (by simpa using he)
    have hsc : dtScore (rrfTable k bm v) e.1 = e.2.rrf_score := by
      simp [dtScore, hlk]
    have := dtScore_rrfTable k bm v e.1 hb hv
    rw [hsc] at this
    exact this

/-- Witness for C1 at a concrete pair of ranked lists. -/
theorem rrf_merge_union_and_exact_scores_witness :
    (([("d1", "c1", (5 : ℚ))].map (·.1)).Nodup ∧
      ([("d2", "c2", (3 : ℚ)), ("d1", "c1", (2 : ℚ))].map (·.1)).Nodup) ∧
    (((RRFMerger.merge 60 [("d1", "c1", (5 : ℚ))]
        [("d2", "c2", (3 : ℚ)), ("d1", "c1", (2 : ℚ))]).map (·.doc_id)).Nodup ∧
    (∀ d, d ∈ (RRFMerger.merge 60 [("d1", "c1", (5 : ℚ))]
        [("d2", "c2", (3 : ℚ)), ("d1", "c1", (2 : ℚ))]).map (·.doc_id) ↔
      d ∈ [("d1", "c1", (5 : ℚ))].map (·.1) ∨
      d ∈ [("d2", "c2", (3 : ℚ)), ("d1", "c1", (2 : ℚ))].map (·.1)) ∧
    ∀ res ∈ RRFMerger.merge 60 [("d1", "c1", (5 : ℚ))]
        [("d2", "c2", (3 : ℚ)), ("d1", "c1", (2 : ℚ))],
      res.combined_score =
        rankContrib 60 [("d1", "c1", (5 : ℚ))] res.doc_id +
        rankContrib 60 [("d2", "c2", (3 : ℚ)), ("d1", "c1", (2 : ℚ))] res.doc_id) :=
  ⟨⟨by decide, by decide⟩,
    rrf_merge_union_and_exact_scores 60 _ _ (by decide) (by decide)⟩

/-! ### Association-list lemmas for the aggregation maps -/

theorem assoc_find?_cons {β : Type} (e : String × β) (t : List (String × β)) (c : String) :
    (e :: t).find? (fun x => x.1 == c) =
      if e.1 = c then some e else t.find? (fun x => x.1 == c) := by
  by_cases h : e.1 = c
  · simp [List.find?, h]
  · have hb : (e.1 == c) = false := beq_eq_false_iff_ne.2 h
    simp [List.find?, hb, h]

theorem assoc_find?_of_mem {β : Type} (t : List (String × β)) (c : String) (b : β)
    (hnd : (t.map (·.1)).Nodup) (hm : (c, b) ∈ t) :
    t.find? (fun x => x.1 == c) = some (c, b) := by
  induction t with
  | nil => cases hm
  | cons e rest ih =>
      rw [List.map_cons, List.nodup_cons] at hnd
      rcases List.mem_cons.1 hm with h | h
      · rw [← h, assoc_find?_cons, if_pos rfl]
      · have hc : c ∈ rest.map (·.1) := List.mem_map.2 ⟨(c, b), h, rfl⟩
        have hne : ¬ e.1 = c := fun hh => hnd.1 (hh ▸ hc)
        rw [assoc_find?_cons, if_neg hne]
        exact ih hnd.2 h

theorem qLookup_upsertAdd_self (c : String) (s : ℚ) (t : List (String × ℚ)) :
    qLookup (upsertAdd c s t) c = qLookup t c + s := by
  induction t with
  | nil => simp [upsertAdd, qLookup, List.find?]
  | cons e rest ih =>
      by_cases h : e.1 = c
      · rw [upsertAdd, if_pos h]
        simp [qLookup, assoc_find?_cons, h]
      · rw [upsertAdd, if_neg h]
        simp only [qLookup, assoc_find?_cons, if_neg h] at ih ⊢
        exact ih

theorem qLookup_upsertAdd_other (c x : String) (s : ℚ) (t : List (String × ℚ))
    (hx : x ≠ c) : qLookup (upsertAdd c s t) x = qLookup t x := by
  induction t with
  | nil =>
      have : ¬ c = x := fun hh => hx hh.symm
      simp [upsertAdd, qLookup, List.find?, beq_eq_false_iff_ne.2 this]
  | cons e rest ih =>
      by_cases h : e.1 = c
      · have hex : ¬ e.1 = x := fun hh => hx (hh.symm.trans h)
        rw [upsertAdd, if_pos h]
        simp [qLookup, assoc_find?_cons, hex]
      · rw [upsertAdd, if_neg h]
        by_cases hex : e.1 = x
        · simp [qLookup, assoc_find?_cons, hex]
        · simp only [qLookup, assoc_find?_cons, if_neg hex] at ih ⊢
          exact ih

theorem qKeys_upsertAdd (c : String) (s : ℚ) (t : List (String × ℚ)) :
    qKeys (upsertAdd c s t) = if c ∈ qKeys t then qKeys t else qKeys t ++ [c] := by
  induction t with
  | nil => simp [upsertAdd, qKeys]
  | cons e rest ih =>
      by_cases h : e.1 = c
      · rw [upsertAdd, if_pos h]
        simp [qKeys, h]
      · rw [upsertAdd, if_neg h]
        have hne : ¬ c = e.1 := fun hh => h hh.symm
        simp only [qKeys, List.map_cons] at ih ⊢
        rw [ih]
        by_cases hm : c ∈ rest.map (·.1) <;> simp [hm, hne]

theorem nodup_qKeys_upsertAdd (c : String) (s : ℚ) (t : List (String × ℚ))
    (h : (qKeys t).Nodup) : (qKeys (upsertAdd c s t)).Nodup := by
  rw [qKeys_upsertAdd]
  by_cases hm : c ∈ qKeys t
  · rwa [if_pos hm]
  · rw [if_neg hm]
    simp [List.nodup_append, h, hm]

theorem qLookup_rrfAggregate :
    ∀ (l : List RRFResult) (acc : List (String × ℚ)) (c : String),
      qLookup (rrfAggregate l acc) c = qLookup acc c + sumScores l c
  | [], acc, c => by simp [rrfAggregate, sumScores]
  | r :: rest, acc, c => by
      rw [rrfAggregate, qLookup_rrfAggregate rest _ c]
      by_cases h : r.candidate_id = c
      · subst h
        rw [qLookup_upsertAdd_self]
        simp [sumScores, List.filter_cons]
        ring
      · rw [qLookup_upsertAdd_other _ _ _ _ (fun hh => h hh.symm)]
        have hb : (r.candidate_id == c) = false := beq_eq_false_iff_ne.2 h
        simp only [sumScores, List.filter_cons, hb, if_neg Bool.false_ne_true]

theorem nodup_qKeys_rrfAggregate :
    ∀ (l : List RRFResult) (acc : List (String × ℚ)),
      (qKeys acc).Nodup → (qKeys (rrfAggregate l acc)).Nodup
  | [], _, h => h
  | r :: rest, acc, h =>
      nodup_qKeys_rrfAggregate rest _ (nodup_qKeys_upsertAdd _ _ _ h)

theorem qLookup_of_mem (t : List (String × ℚ)) (c : String) (s : ℚ)
    (hnd : (qKeys t).Nodup) (hm : (c, s) ∈ t) : qLookup t c = s := by
  rw [qLookup, assoc_find?_of_mem t c s hnd hm]
  rfl

/-! ### Lemmas for the grouping map of `_build_search_results` -/

theorem gLookup_upsertAppend_self (c : String) (r : RRFResult)
    (t : List (String × List RRFResult)) :
    gLookup (upsertAppend c r t) c = gLookup t c ++ [r] := by
  induction t with
  | nil => simp [upsertAppend, gLookup, List.find?]
  | cons e rest ih =>
      by_cases h : e.1 = c
      · rw [upsertAppend, if_pos h]
        simp [gLookup, assoc_find?_cons, h]
      · rw [upsertAppend, if_neg h]
        simp only [gLookup, assoc_find?_cons, if_neg h] at ih ⊢
        exact ih

theorem gLookup_upsertAppend_other (c x : String) (r : RRFResult)
    (t : List (String × List RRFResult)) (hx : x ≠ c) :
    gLookup (upsertAppend c r t) x = gLookup t x := by
  induction t with
  | nil =>
      have : ¬ c = x := fun hh => hx hh.symm
      simp [upsertAppend, gLookup, List.find?, beq_eq_false_iff_ne.2 this]
  | cons e rest ih =>
      by_cases h : e.1 = c
      · have hex : ¬ e.1 = x := fun hh => hx (hh.symm.trans h)
        rw [upsertAppend, if_pos h]
        simp [gLookup, assoc_find?_cons, hex]
      · rw [upsertAppend, if_neg h]
        by_cases hex : e.1 = x
        · simp [gLookup, assoc_find?_cons, hex]
        · simp only [gLookup, assoc_find?_cons, if_neg hex] at ih ⊢
          exact ih

theorem gKeys_upsertAppend (c : String) (r : RRFResult)
    (t : List (String × List RRFResult)) :
    gKeys (upsertAppend c r t) = if c ∈ gKeys t then gKeys t else gKeys t ++ [c] := by
  induction t with
  | nil => simp [upsertAppend, gKeys]
  | cons e rest ih =>
      by_cases h : e.1 = c
      · rw [upsertAppend, if_pos h]
        simp [gKeys, h]
      · rw [upsertAppend, if_neg h]
        have hne : ¬ c = e.1 := fun hh => h hh.symm
        simp only [gKeys, List.map_cons] at ih ⊢
        rw [ih]
        by_cases hm : c ∈ rest.map (·.1) <;> simp [hm, hne]

theorem nodup_gKeys_upsertAppend (c : String) (r : RRFResult)
    (t : List (String × List RRFResult)) (h : (gKeys t).Nodup) :
    (gKeys (upsertAppend c r t)).Nodup := by
  rw [gKeys_upsertAppend]
  by_cases hm : c ∈ gKeys t
  · rwa [if_pos hm]
  · rw [if_neg hm]
    simp [List.nodup_append, h, hm]

theorem gLookup_groupByCandidate :
    ∀ (l : List RRFResult) (acc : List (String × List RRFResult)) (c : String),
      gLookup (groupByCandidate l acc) c =
        gLookup acc c ++ l.filter (fun r => r.candidate_id == c)
  | [], acc, c => by simp [groupByCandidate]
  | r :: rest, acc, c => by
      rw [groupByCandidate, gLookup_groupByCandidate rest _ c]
      by_cases h : r.candidate_id = c
      · subst h
        rw [gLookup_upsertAppend_self]
        simp [List.filter_cons]
      · rw [gLookup_upsertAppend_other _ _ _ _ (fun hh => h hh.symm)]
        have hb : (r.candidate_id == c) = false := beq_eq_false_iff_ne.2 h
        simp [List.filter_cons, hb]

theorem nodup_gKeys_groupByCandidate :
    ∀ (l : List RRFResult) (acc : List (String × List RRFResult)),
      (gKeys acc).Nodup → (gKeys (groupByCandidate l acc)).Nodup
  | [], _, h => h
  | r :: rest, acc, h =>
      nodup_gKeys_groupByCandidate rest _ (nodup_gKeys_upsertAppend _ _ _ h)

theorem gLookup_of_mem (t : List (String × List RRFResult)) (c : String)
    (g : List RRFResult) (hnd : (gKeys t).Nodup) (hm : (c, g) ∈ t) :
    gLookup t c = g := by
  rw [gLookup, assoc_find?_of_mem t c g hnd hm]
  rfl

/-- **C2.** Both candidate-level aggregations — `RRFMerger.merge_candidate_level`
and the per-candidate grouping of `_build_search_results` — assign each
candidate a `combined_score` equal to the sum of the fused `combined_score`
values of the entries owned by that candidate. -/
theorem candidate_aggregate_sum_law (k : ℕ)
    (bm v : List (String × String × ℚ)) (rrf_results : List RRFResult) :
    (∀ p ∈ RRFMerger.merge_candidate_level k bm v,
      p.2 = sumScores (RRFMerger.merge k bm v) p.1) ∧
    (∀ p ∈ buildCandidateScores rrf_results,
      p.2 = sumScores rrf_results p.1) := by
  constructor
  · intro p hp
    have hp' : p ∈ rrfAggregate (RRFMerger.merge k bm v) [] :=
      (List.perm_insertionSort _ _).mem_iff.1 hp
    have hnd : (qKeys (rrfAggregate (RRFMerger.merge k bm v) [])).Nodup :=
      nodup_qKeys_rrfAggregate _ _ List.nodup_nil
    have := qLookup_of_mem _ p.1 p.2 hnd (by simpa using hp')
    rw [qLookup_rrfAggregate] at this
    have h0 : qLookup [] p.1 = 0 := rfl
    rw [h0, zero_add] at this
    exact this.symm
  · intro p hp
    have hp' : p ∈ (groupByCandidate rrf_results []).map
        (fun e => (e.1, (e.2.map (·.combined_score)).sum)) :=
      (List.perm_insertionSort _ _).mem_iff.1 hp
    rcases List.mem_map.1 hp' with ⟨e, he, rfl⟩
    have hnd : (gKeys (groupByCandidate rrf_results [])).Nodup :=
      nodup_gKeys_groupByCandidate _ _ List.nodup_nil
    have hg : gLookup (groupByCandidate rrf_results []) e.1 = e.2 :=
      gLookup_of_mem _ _ _ hnd (by simpa using he)
    rw [gLookup_groupByCandidate] at hg
    simp only [gLookup] at hg
    show (e.2.map (·.combined_score)).sum = sumScores rrf_results e.1
    rw [← hg]
    simp [sumScores]

/-- Witness for C2 at a concrete fused list. -/
theorem candidate_aggregate_sum_law_witness :
    (("c1", (1 : ℚ) / 61) ∈
      RRFMerger.merge_candidate_level 60 [("d1", "c1", (5 : ℚ))] [] ∧
      ((1 : ℚ) / 61) =
        sumScores (RRFMerger.merge 60 [("d1", "c1", (5 : ℚ))] []) "c1") ∧
    (("cA", (1 : ℚ)) ∈ buildCandidateScores
        [{ doc_id := "x", candidate_id := "cA", combined_score := (1 : ℚ) }] ∧
      (1 : ℚ) = sumScores
        [{ doc_id := "x", candidate_id := "cA", combined_score := (1 : ℚ) }] "cA") := by
  have hm1 : ("c1", (1 : ℚ) / 61) ∈
      RRFMerger.merge_candidate_level 60 [("d1", "c1", (5 : ℚ))] [] := by
    norm_num [RRFMerger.merge_candidate_level, RRFMerger.merge, rrfTable, rrfProcess,
      updEntry, ensureKey, dtKeys, bmUpd, vecUpd, rrfEntry, rrfAggregate, upsertAdd,
      List.insertionSort, List.orderedInsert]
  have hm2 : ("cA", (1 : ℚ)) ∈ buildCandidateScores
      [{ doc_id := "x", candidate_id := "cA", combined_score := (1 : ℚ) }] := by
    norm_num [buildCandidateScores, groupByCandidate, upsertAppend,
      List.insertionSort, List.orderedInsert]
  exact ⟨⟨hm1, (candidate_aggregate_sum_law 60 [("d1", "c1", (5 : ℚ))] [] []).1
      ("c1", (1 : ℚ) / 61) hm1⟩,
    ⟨hm2, (candidate_aggregate_sum_law 60 [] []
        [{ doc_id := "x", candidate_id := "cA", combined_score := (1 : ℚ) }]).2
      ("cA", (1 : ℚ)) hm2⟩⟩

/-! ### BM25 lemmas -/

theorem zip_map_left {α β γ : Type} (f : α → γ) :
    ∀ (A : List α) (B : List β), A.length = B.length →
      ((A.zip B).map (fun p => f p.1)) = A.map f
  | [], B, _ => by simp
  | a :: A, [], h => by simp at h
  | a :: A, b :: B, h => by
      simp only [List.zip_cons_cons, List.map_cons]
      rw [zip_map_left f A B (by simpa using h)]

theorem score_document_zero (st : BM25Search) (doc : BM25Document) (doc_len : ℕ)
    (query_tokens : List String) (h : ∀ t ∈ query_tokens, t ∉ doc.tokens) :
    st.score_document doc doc_len query_tokens = 0 := by
  rw [BM25Search.score_document]
  have hgen : ∀ (qt : List String) (acc : ℚ), (∀ t ∈ qt, t ∉ doc.tokens) →
      qt.foldl
        (fun score tk =>
          match rLookup st.idf tk with
          | none => score
          | some idfv =>
              let freq := doc.tokens.count tk
              if freq = 0 then score
              else
                score + idfv * ((freq : ℚ) * (st.k1 + 1)) /
                  ((freq : ℚ) + st.k1 * (1 - st.b + st.b * ((doc_len : ℚ) / st.avgdl))))
        acc = acc := by
    intro qt
    induction qt with
    | nil => intro acc _; rfl
    | cons tk rest ih =>
        intro acc hq
        rw [List.foldl_cons]
        have hfreq : doc.tokens.count tk = 0 :=
          List.count_eq_zero.2 (hq tk (List.mem_cons_self tk rest))
        have hstep :
            (match rLookup st.idf tk with
              | none => acc
              | some idfv =>
                  let freq := doc.tokens.count tk
                  if freq = 0 then acc
                  else
                    acc + idfv * ((freq : ℚ) * (st.k1 + 1)) /
                      ((freq : ℚ) + st.k1 * (1 - st.b + st.b * ((doc_len : ℚ) / st.avgdl)))) =
              acc := by
          cases rLookup st.idf tk with
          | none => rfl
          | some idfv => simp [hfreq]
        rw [hstep]
        exact ih acc (fun t ht => hq t (List.mem_cons_of_mem tk ht))
  exact hgen query_tokens 0 h

/-- **C9.** On a freshly built index, a query that tokenizes to something
non-empty makes `BM25Search.search` score every indexed document — the
candidate list has exactly one entry per document, documents sharing no
token with the query score `0.0`, and the returned list is the
score-descending sort truncated to `top_k`, hence of length
`min top_k (number of documents)`. -/
theorem bm25_search_scores_every_document (st0 : BM25Search) (lg : ℚ → ℚ)
    (docs : List BM25Document) (query : String) (top_k : ℕ)
    (hq : (pyTokenize query).isEmpty = false) :
    (st0.index_documents lg docs).search query top_k =
      (((st0.index_documents lg docs).scoresAll (pyTokenize query)).insertionSort
        (fun a b => b.2.2 ≤ a.2.2)).take top_k ∧
    ((st0.index_documents lg docs).scoresAll (pyTokenize query)).map (·.1) =
      (st0.index_documents lg docs).documents.map (·.id) ∧
    ((st0.index_documents lg docs).search query top_k).length = min top_k docs.length ∧
    ∀ d ∈ (st0.index_documents lg docs).documents,
      (∀ t ∈ pyTokenize query, t ∉ d.tokens) →
      ∀ dl, (st0.index_documents lg docs).score_document d dl (pyTokenize query) = 0 := by
  have hidx : (st0.index_documents lg docs).indexed = true := rfl
  have hlen : (st0.index_documents lg docs).documents.length =
      (st0.index_documents lg docs).doc_lengths.length := by
    show (docs.map _).length = ((docs.map _).map _).length
    simp
  have hsearch : (st0.index_documents lg docs).search query top_k =
      (((st0.index_documents lg docs).scoresAll (pyTokenize query)).insertionSort
        (fun a b => b.2.2 ≤ a.2.2)).take top_k := by
    rw [BM25Search.search, hidx]
    simp [hq]
  have hmap : ((st0.index_documents lg docs).scoresAll (pyTokenize query)).map (·.1) =
      (st0.index_documents lg docs).documents.map (·.id) := by
    rw [BM25Search.scoresAll, List.map_map]
    exact zip_map_left (fun d => d.id) _ _ hlen
  refine ⟨hsearch, hmap, ?_, ?_⟩
  · rw [hsearch, List.length_take, List.length_insertionSort]
    have hdl : (st0.index_documents lg docs).documents.length = docs.length := by
      show (docs.map _).length = docs.length
      rw [List.length_map]
    have hdl2 : (st0.index_documents lg docs).doc_lengths.length = docs.length := by
      rw [← hlen, hdl]
    have : ((st0.index_documents lg docs).scoresAll (pyTokenize query)).length =
        docs.length := by
      rw [BM25Search.scoresAll, List.length_map, List.length_zip, hdl, hdl2, min_self]
    rw [this]
  · intro d _ hdisj dl
    exact score_document_zero _ d dl _ hdisj

/-- Witness for C9 on a two-document corpus and the query `"python"`,
which matches only one document. -/
theorem bm25_search_scores_every_document_witness :
    ((pyTokenize "python").isEmpty = false) ∧
    ((BM25Search.init.index_documents (fun _ => 1)
        [{ id := "d1", candidate_id := "c1", content := "python dev" },
         { id := "d2", candidate_id := "c2", content := "java" }]).search "python" 10 =
      (((BM25Search.init.index_documents (fun _ => 1)
        [{ id := "d1", candidate_id := "c1", content := "python dev" },
         { id := "d2", candidate_id := "c2", content := "java" }]).scoresAll
          (pyTokenize "python")).insertionSort (fun a b => b.2.2 ≤ a.2.2)).take 10 ∧
    ((BM25Search.init.index_documents (fun _ => 1)
        [{ id := "d1", candidate_id := "c1", content := "python dev" },
         { id := "d2", candidate_id := "c2", content := "java" }]).scoresAll
          (pyTokenize "python")).map (·.1) =
      (BM25Search.init.index_documents (fun _ => 1)
        [{ id := "d1", candidate_id := "c1", content := "python dev" },
         { id := "d2", candidate_id := "c2", content := "java" }]).documents.map (·.id) ∧
    ((BM25Search.init.index_documents (fun _ => 1)
        [{ id := "d1", candidate_id := "c1", content := "python dev" },
         { id := "d2", candidate_id := "c2", content := "java" }]).search "python" 10).length =
      min 10 2 ∧
    ∀ d ∈ (BM25Search.init.index_documents (fun _ => 1)
        [{ id := "d1", candidate_id := "c1", content := "python dev" },
         { id := "d2", candidate_id := "c2", content := "java" }]).documents,
      (∀ t ∈ pyTokenize "python", t ∉ d.tokens) →
      ∀ dl, (BM25Search.init.index_documents (fun _ => 1)
        [{ id := "d1", candidate_id := "c1", content := "python dev" },
         { id := "d2", candidate_id := "c2", content := "java" }]).score_document d dl
          (pyTokenize "python") = 0) :=
  ⟨by decide,
    bm25_search_scores_every_document BM25Search.init (fun _ => 1)
      [{ id := "d1", candidate_id := "c1", content := "python dev" },
       { id := "d2", candidate_id := "c2", content := "java" }] "python" 10 (by decide)⟩

/-- **C3 (counterexample).** `BM25Search.add_documents` on an index that
already holds the document `"a"` rebuilds the index from the *new* documents
only: `"a"` is gone afterwards, contradicting "no previously indexed
document is lost". -/
theorem add_documents_discards_existing_counterexample :
    "a" ∉ ((BM25Search.init.index_documents (fun _ => 1)
        [{ id := "a", candidate_id := "c1", content := "python" }]).add_documents
        (fun _ => 1) ["b"] ["c2"] ["java"]).documents.map (·.id) ∧
    ((BM25Search.init.index_documents (fun _ => 1)
        [{ id := "a", candidate_id := "c1", content := "python" }]).add_documents
        (fun _ => 1) ["b"] ["c2"] ["java"]).documents.map (·.id) = ["b"] := by
  constructor
  · decide
  · decide

/-- **C3 (amended).** `HybridSearchEngine.add_candidate_chunks` — the path
used when new candidate chunks are added — does rebuild the index over the
union of the existing and the new documents: it is exactly
`index_documents` on `existing ++ new`, every previously indexed document id
survives, the new chunk ids are appended, and the resulting index is built
(`indexed = true`, statistics recomputed over the union by
`index_documents`). -/
theorem add_candidate_chunks_rebuilds_over_union (st : BM25Search) (lg : ℚ → ℚ)
    (chunk_ids : List String) (candidate_id : String) (contents : List String)
    (hlen : chunk_ids.length = contents.length) :
    HybridSearchEngine.add_candidate_chunks st lg chunk_ids candidate_id contents =
      st.index_documents lg (st.documents ++ (chunk_ids.zip contents).map
        (fun p => { id := p.1, candidate_id := candidate_id, content := p.2 })) ∧
    (HybridSearchEngine.add_candidate_chunks st lg chunk_ids candidate_id
        contents).documents.map (·.id) = st.documents.map (·.id) ++ chunk_ids ∧
    (∀ d ∈ st.documents, d.id ∈ (HybridSearchEngine.add_candidate_chunks st lg chunk_ids
        candidate_id contents).documents.map (·.id)) ∧
    (HybridSearchEngine.add_candidate_chunks st lg chunk_ids candidate_id
        contents).indexed = true := by
  have hdoc : (HybridSearchEngine.add_candidate_chunks st lg chunk_ids candidate_id
      contents).documents.map (·.id) = st.documents.map (·.id) ++ chunk_ids := by
    show ((st.documents ++ (chunk_ids.zip contents).map _).map _).map _ = _
    rw [List.map_map, List.map_append, List.map_map]
    congr 1
    show (chunk_ids.zip contents).map (fun p => p.1) = chunk_ids
    have h2 := zip_map_left (fun x : String => x) chunk_ids contents hlen
    simpa using h2
  refine ⟨rfl, hdoc, ?_, rfl⟩
  intro d hd
  rw [hdoc]
  exact List.mem_append_left _ (List.mem_map.2 ⟨d, hd, rfl⟩)

/-- Witness for the amended C3 on a one-document index extended by one
chunk. -/
theorem add_candidate_chunks_rebuilds_over_union_witness :
    (["b"].length = ["java"].length) ∧
    (HybridSearchEngine.add_candidate_chunks (BM25Search.init.index_documents (fun _ => 1)
        [{ id := "a", candidate_id := "c1", content := "python" }]) (fun _ => 1)
        ["b"] "c2" ["java"] =
      (BM25Search.init.index_documents (fun _ => 1)
        [{ id := "a", candidate_id := "c1", content := "python" }]).index_documents (fun _ => 1)
        ((BM25Search.init.index_documents (fun _ => 1)
          [{ id := "a", candidate_id := "c1", content := "python" }]).documents ++
          (["b"].zip ["java"]).map
            (fun p => { id := p.1, candidate_id := "c2", content := p.2 })) ∧
    (HybridSearchEngine.add_candidate_chunks (BM25Search.init.index_documents (fun _ => 1)
        [{ id := "a", candidate_id := "c1", content := "python" }]) (fun _ => 1)
        ["b"] "c2" ["java"]).documents.map (·.id) =
      (BM25Search.init.index_documents (fun _ => 1)
        [{ id := "a", candidate_id := "c1", content := "python" }]).documents.map (·.id) ++
        ["b"] ∧
    (∀ d ∈ (BM25Search.init.index_documents (fun _ => 1)
        [{ id := "a", candidate_id := "c1", content := "python" }]).documents,
      d.id ∈ (HybridSearchEngine.add_candidate_chunks (BM25Search.init.index_documents
        (fun _ => 1) [{ id := "a", candidate_id := "c1", content := "python" }]) (fun _ => 1)
        ["b"] "c2" ["java"]).documents.map (·.id)) ∧
    (HybridSearchEngine.add_candidate_chunks (BM25Search.init.index_documents (fun _ => 1)
        [{ id := "a", candidate_id := "c1", content := "python" }]) (fun _ => 1)
        ["b"] "c2" ["java"]).indexed = true) :=
  ⟨rfl,
    add_candidate_chunks_rebuilds_over_union
      (BM25Search.init.index_documents (fun _ => 1)
        [{ id := "a", candidate_id := "c1", content := "python" }]) (fun _ => 1)
      ["b"] "c2" ["java"] rfl⟩

/-! ### Document-frequency lemmas (`index_documents`) -/

theorem nLookup_bumpTok (tk x : String) (m : List (String × ℕ)) :
    nLookup (bumpTok tk m) x =
      if x = tk then some ((nLookup m x).getD 0 + 1) else nLookup m x := by
  induction m with
  | nil =>
      by_cases hx : x = tk
      · simp [bumpTok, nLookup, List.find?, hx]
      · have htx : ¬ tk = x := fun hh => hx hh.symm
        simp [bumpTok, nLookup, List.find?, hx, beq_eq_false_iff_ne.2 htx]
  | cons e rest ih =>
      by_cases he : e.1 = tk
      · by_cases hx : x = tk
        · have hex : e.1 = x := he.trans hx.symm
          simp [bumpTok, he, nLookup, assoc_find?_cons, hex, hx]
        · have hex : ¬ e.1 = x := fun hh => hx ((hh.symm).trans he)
          have htx : ¬ tk = x := fun hh => hx hh.symm
          simp [bumpTok, he, nLookup, assoc_find?_cons, hex, hx, htx]
      · by_cases hex : e.1 = x
        · have hx : ¬ x = tk := fun hh => he (hex.trans hh)
          simp [bumpTok, he, nLookup, assoc_find?_cons, hex, hx]
        · simp only [bumpTok, if_neg he]
          simp only [nLookup, assoc_find?_cons, if_neg hex] at ih ⊢
          exact ih

theorem nLookup_addDocTokens (toks : List String) (hnd : toks.Nodup) :
    ∀ (m : List (String × ℕ)) (x : String),
      nLookup (addDocTokens toks m) x =
        if x ∈ toks then some ((nLookup m x).getD 0 + 1) else nLookup m x := by
  induction toks with
  | nil => intro m x; simp [addDocTokens]
  | cons tk rest ih =>
      intro m x
      have hnd' := List.nodup_cons.1 hnd
      have hstep : addDocTokens (tk :: rest) m = addDocTokens rest (bumpTok tk m) := rfl
      rw [hstep, ih hnd'.2 (bumpTok tk m) x]
      by_cases hx : x = tk
      · subst hx
        rw [if_neg hnd'.1, nLookup_bumpTok, if_pos rfl,
          if_pos (List.mem_cons_self x rest)]
      · by_cases hr : x ∈ rest
        · rw [if_pos hr, nLookup_bumpTok, if_neg hx,
            if_pos (List.mem_cons_of_mem tk hr)]
        · rw [if_neg hr, nLookup_bumpTok, if_neg hx, if_neg (by
            intro hm
            rcases List.mem_cons.1 hm with h | h
            · exact hx h
            · exact hr h)]

theorem nLookup_computeDocFreqs :
    ∀ (docs : List BM25Document) (m : List (String × ℕ)) (x : String),
      nLookup (computeDocFreqs docs m) x =
        if (docs.filter (fun d => decide (x ∈ d.tokens))).length = 0
        then nLookup m x
        else some ((nLookup m x).getD 0 +
          (docs.filter (fun d => decide (x ∈ d.tokens))).length)
  | [], m, x => by simp [computeDocFreqs]
  | d :: rest, m, x => by
      have hrec : nLookup (computeDocFreqs (d :: rest) m) x =
          nLookup (computeDocFreqs rest (addDocTokens d.tokens.dedup m)) x := rfl
      rw [hrec, nLookup_computeDocFreqs rest _ x,
        nLookup_addDocTokens d.tokens.dedup d.tokens.nodup_dedup m x]
      by_cases hmem : x ∈ d.tokens
      · have hdd : x ∈ d.tokens.dedup := List.mem_dedup.2 hmem
        have hfil : (d :: rest).filter (fun d => decide (x ∈ d.tokens)) =
            d :: rest.filter (fun d => decide (x ∈ d.tokens)) := by
          simp [List.filter_cons, hmem]
        rw [hfil, List.length_cons]
        simp only [if_pos hdd]
        by_cases h0 : (rest.filter (fun d => decide (x ∈ d.tokens))).length = 0
        · rw [if_pos h0, h0, if_neg (by omega : ¬ (0 + 1 = 0))]
        · rw [if_neg h0, if_neg (by omega :
            ¬ ((rest.filter (fun d => decide (x ∈ d.tokens))).length + 1 = 0)),
            Option.getD_some]
          congr 1
          omega
      · have hdd : x ∉ d.tokens.dedup := fun hh => hmem (List.mem_dedup.1 hh)
        have hfil : (d :: rest).filter (fun d => decide (x ∈ d.tokens)) =
            rest.filter (fun d => decide (x ∈ d.tokens)) := by
          simp [List.filter_cons, hmem]
        rw [hfil]
        simp only [if_neg hdd]

theorem docFreq_bounds (docs : List BM25Document) (x : String) (df : ℕ)
    (h : nLookup (computeDocFreqs docs []) x = some df) :
    1 ≤ df ∧ df ≤ docs.length := by
  rw [nLookup_computeDocFreqs] at h
  by_cases h0 : (docs.filter (fun d => decide (x ∈ d.tokens))).length = 0
  · rw [if_pos h0] at h
    cases h
  · rw [if_neg h0] at h
    have hnil : nLookup ([] : List (String × ℕ)) x = none := rfl
    rw [hnil] at h
    simp only [Option.getD_none, Nat.zero_add] at h
    have hdf : df = (docs.filter (fun d => decide (x ∈ d.tokens))).length :=
      (Option.some_injective _ h).symm
    subst hdf
    exact ⟨Nat.one_le_iff_ne_zero.2 h0, List.length_filter_le _ _⟩

theorem rLookup_idf_map (g : ℕ → ℚ) (m : List (String × ℕ)) (x : String) :
    rLookup (m.map (fun e => (e.1, g e.2))) x = (nLookup m x).map g := by
  induction m with
  | nil => simp [rLookup, nLookup]
  | cons e rest ih =>
      by_cases he : e.1 = x
      · simp [rLookup, nLookup, assoc_find?_cons, he]
      · simp only [List.map_cons]
        simp only [rLookup, nLookup, assoc_find?_cons] at ih ⊢
        simpa [he] using ih

theorem one_lt_idfArg (n df : ℕ) (h1 : 1 ≤ df) (h2 : df ≤ n) : 1 < idfArg n df := by
  rw [idfArg]
  have hd : (0 : ℚ) < (df : ℚ) + 1 / 2 := by positivity
  have hq : (df : ℚ) ≤ (n : ℚ) := by exact_mod_cast h2
  have hn : (0 : ℚ) < (n : ℚ) - (df : ℚ) + 1 / 2 := by linarith
  have := div_pos hn hd
  linarith

theorem idfArg_anti (n d1 d2 : ℕ) (hle : d1 ≤ d2) (h2 : d2 ≤ n) :
    idfArg n d2 ≤ idfArg n d1 := by
  rw [idfArg, idfArg]
  have h1q : (d1 : ℚ) ≤ (d2 : ℚ) := by exact_mod_cast hle
  have h2q : (d2 : ℚ) ≤ (n : ℚ) := by exact_mod_cast h2
  have h0 : (0 : ℚ) ≤ (d1 : ℚ) := by positivity
  have hd1 : (0 : ℚ) < (d1 : ℚ) + 1 / 2 := by positivity
  have hd2 : (0 : ℚ) < (d2 : ℚ) + 1 / 2 := by positivity
  have key : ((n : ℚ) - d2 + 1 / 2) * ((d1 : ℚ) + 1 / 2) ≤
      ((n : ℚ) - d1 + 1 / 2) * ((d2 : ℚ) + 1 / 2) := by nlinarith
  have := (div_le_div_iff hd2 hd1).2 key
  linarith

/-- **C7.** After `index_documents`, every indexed term's IDF table entry is
`max(lg(idfArg n df), epsilon)`; with the ideal real logarithm that value is
at least `epsilon` and strictly positive, and it is antitone in the document
frequency (a rarer term never gets a smaller IDF).  The `__init__` default
for `epsilon` is `0.25`. -/
theorem bm25_idf_floor_positive_and_monotone (st0 : BM25Search) (lg : ℚ → ℚ)
    (docs : List BM25Document) (t1 t2 : String) (df1 df2 : ℕ)
    (h1 : nLookup (st0.index_documents lg docs).doc_freqs t1 = some df1)
    (h2 : nLookup (st0.index_documents lg docs).doc_freqs t2 = some df2)
    (hle : df1 ≤ df2) :
    rLookup (st0.index_documents lg docs).idf t1 =
      some (max (lg (idfArg docs.length df1)) st0.epsilon) ∧
    ((st0.epsilon : ℝ) ≤ max (Real.log ((idfArg docs.length df1 : ℚ) : ℝ))
      ((st0.epsilon : ℚ) : ℝ)) ∧
    (0 < max (Real.log ((idfArg docs.length df1 : ℚ) : ℝ)) ((st0.epsilon : ℚ) : ℝ)) ∧
    (max (Real.log ((idfArg docs.length df2 : ℚ) : ℝ)) ((st0.epsilon : ℚ) : ℝ) ≤
      max (Real.log ((idfArg docs.length df1 : ℚ) : ℝ)) ((st0.epsilon : ℚ) : ℝ)) ∧
    BM25Search.init.epsilon = 1 / 4 := by
  have hdfeq : (st0.index_documents lg docs).doc_freqs =
      computeDocFreqs (docs.map (fun d => { d with tokens := pyTokenize d.content })) [] :=
    rfl
  rw [hdfeq] at h1 h2
  have hdf1 := docFreq_bounds
    (docs.map (fun d => { d with tokens := pyTokenize d.content })) t1 df1 h1
  have hdf2 := docFreq_bounds
    (docs.map (fun d => { d with tokens := pyTokenize d.content })) t2 df2 h2
  rw [List.length_map] at hdf1 hdf2
  have harg1 : 1 < idfArg docs.length df1 := one_lt_idfArg _ _ hdf1.1 hdf1.2
  have harg2 : 1 < idfArg docs.length df2 := one_lt_idfArg _ _ hdf2.1 hdf2.2
  have harg1R : (1 : ℝ) < ((idfArg docs.length df1 : ℚ) : ℝ) := by exact_mod_cast harg1
  have harg2R : (1 : ℝ) < ((idfArg docs.length df2 : ℚ) : ℝ) := by exact_mod_cast harg2
  refine ⟨?_, le_max_right _ _, ?_, ?_, rfl⟩
  · have hidfeq : (st0.index_documents lg docs).idf =
        (st0.index_documents lg docs).doc_freqs.map
          (fun e => (e.1, max (lg (idfArg (docs.map
            (fun d => { d with tokens := pyTokenize d.content })).length e.2))
            st0.epsilon)) := rfl
    have hmap := rLookup_idf_map
      (fun v => max (lg (idfArg (docs.map
        (fun d => { d with tokens := pyTokenize d.content })).length v)) st0.epsilon)
      ((st0.index_documents lg docs).doc_freqs) t1
    rw [hidfeq, hmap, hdfeq, h1]
    simp [List.length_map]
  · exact lt_of_lt_of_le (Real.log_pos harg1R) (le_max_left _ _)
  · have hanti : idfArg docs.length df2 ≤ idfArg docs.length df1 :=
      idfArg_anti docs.length df1 df2 hle hdf2.2
    have hantiR : ((idfArg docs.length df2 : ℚ) : ℝ) ≤ ((idfArg docs.length df1 : ℚ) : ℝ) := by
      exact_mod_cast hanti
    exact max_le_max (Real.log_le_log (by linarith) hantiR) (le_refl _)

/-- Witness for C7: in a two-document corpus, `"dev"` (df 1) gets an IDF at
least as large as `"python"` (df 2). -/
theorem bm25_idf_floor_positive_and_monotone_witness :
    (nLookup ((BM25Search.init.index_documents (fun _ => 1)
        [{ id := "d1", candidate_id := "c1", content := "python dev" },
         { id := "d2", candidate_id := "c2", content := "python" }]).doc_freqs) "dev" =
      some 1 ∧
     nLookup ((BM25Search.init.index_documents (fun _ => 1)
        [{ id := "d1", candidate_id := "c1", content := "python dev" },
         { id := "d2", candidate_id := "c2", content := "python" }]).doc_freqs) "python" =
      some 2 ∧ 1 ≤ 2) ∧
    (rLookup ((BM25Search.init.index_documents (fun _ => 1)
        [{ id := "d1", candidate_id := "c1", content := "python dev" },
         { id := "d2", candidate_id := "c2", content := "python" }]).idf) "dev" =
      some (max ((fun _ => (1 : ℚ)) (idfArg 2 1)) BM25Search.init.epsilon) ∧
    ((BM25Search.init.epsilon : ℝ) ≤ max (Real.log ((idfArg 2 1 : ℚ) : ℝ))
      ((BM25Search.init.epsilon : ℚ) : ℝ)) ∧
    (0 < max (Real.log ((idfArg 2 1 : ℚ) : ℝ)) ((BM25Search.init.epsilon : ℚ) : ℝ)) ∧
    (max (Real.log ((idfArg 2 2 : ℚ) : ℝ)) ((BM25Search.init.epsilon : ℚ) : ℝ) ≤
      max (Real.log ((idfArg 2 1 : ℚ) : ℝ)) ((BM25Search.init.epsilon : ℚ) : ℝ)) ∧
    BM25Search.init.epsilon = 1 / 4) :=
  ⟨⟨by decide, by decide, by decide⟩,
    bm25_idf_floor_positive_and_monotone BM25Search.init (fun _ => 1)
      [{ id := "d1", candidate_id := "c1", content := "python dev" },
       { id := "d2", candidate_id := "c2", content := "python" }] "dev" "python" 1 2
      (by decide) (by decide) (by decide)⟩

/-! ### `search_with_expansion` lemmas -/

theorem sLookup_swUpsertMax_self (d c : String) (s : ℚ)
    (t : List (String × String × ℚ)) :
    sLookup (swUpsertMax d c s t) d =
      some (match sLookup t d with
            | none => (c, s)
            | some p => if s > p.2 then (c, s) else p) := by
  induction t with
  | nil => simp [swUpsertMax, sLookup, List.find?]
  | cons e rest ih =>
      by_cases he : e.1 = d
      · rw [swUpsertMax, if_pos he]
        by_cases hs : s > e.2.2
        · rw [if_pos hs]
          simp [sLookup, assoc_find?_cons, he, hs]
        · rw [if_neg hs]
          simp [sLookup, assoc_find?_cons, he, hs]
      · rw [swUpsertMax, if_neg he]
        simp only [sLookup, assoc_find?_cons, if_neg he] at ih ⊢
        exact ih

theorem sLookup_swUpsertMax_other (d c x : String) (s : ℚ)
    (t : List (String × String × ℚ)) (hx : x ≠ d) :
    sLookup (swUpsertMax d c s t) x = sLookup t x := by
  induction t with
  | nil =>
      have : ¬ d = x := fun hh => hx hh.symm
      simp [swUpsertMax, sLookup, List.find?, beq_eq_false_iff_ne.2 this]
  | cons e rest ih =>
      by_cases he : e.1 = d
      · have hex : ¬ e.1 = x := fun hh => hx (hh.symm.trans he)
        rw [swUpsertMax, if_pos he]
        by_cases hs : s > e.2.2
        · rw [if_pos hs]
          simp [sLookup, assoc_find?_cons, hex]
        · rw [if_neg hs]
      · rw [swUpsertMax, if_neg he]
        by_cases hex : e.1 = x
        · simp [sLookup, assoc_find?_cons, hex]
        · simp only [sLookup, assoc_find?_cons, if_neg hex] at ih ⊢
          exact ih

theorem sKeys_swUpsertMax (d c : String) (s : ℚ) (t : List (String × String × ℚ)) :
    sKeys (swUpsertMax d c s t) = if d ∈ sKeys t then sKeys t else sKeys t ++ [d] := by
  induction t with
  | nil => simp [swUpsertMax, sKeys]
  | cons e rest ih =>
      by_cases he : e.1 = d
      · rw [swUpsertMax, if_pos he]
        by_cases hs : s > e.2.2 <;> simp [hs, sKeys, he]
      · rw [swUpsertMax, if_neg he]
        have hne : ¬ d = e.1 := fun hh => he hh.symm
        simp only [sKeys, List.map_cons] at ih ⊢
        rw [ih]
        by_cases hm : d ∈ rest.map (·.1) <;> simp [hm, hne]

theorem nodup_sKeys_swUpsertMax (d c : String) (s : ℚ)
    (t : List (String × String × ℚ)) (h : (sKeys t).Nodup) :
    (sKeys (swUpsertMax d c s t)).Nodup := by
  rw [sKeys_swUpsertMax]
  by_cases hm : d ∈ sKeys t
  · rwa [if_pos hm]
  · rw [if_neg hm]
    simp [List.nodup_append, h, hm]

theorem swInner_append (a b acc : List (String × String × ℚ)) :
    swInner (a ++ b) acc = swInner b (swInner a acc) := by
  simp [swInner, List.foldl_append]

theorem swInner_cons (e : String × String × ℚ) (l acc : List (String × String × ℚ)) :
    swInner (e :: l) acc = swInner l (swUpsertMax e.1 e.2.1 e.2.2 acc) := rfl

theorem mem_sKeys_swInner :
    ∀ (l : List (String × String × ℚ)) (acc : List (String × String × ℚ)) (x : String),
      x ∈ sKeys (swInner l acc) ↔ x ∈ sKeys acc ∨ x ∈ l.map (·.1)
  | [], acc, x => by simp [swInner]
  | e :: rest, acc, x => by
      rw [swInner_cons, mem_sKeys_swInner rest _ x]
      have : x ∈ sKeys (swUpsertMax e.1 e.2.1 e.2.2 acc) ↔ x ∈ sKeys acc ∨ x = e.1 := by
        rw [sKeys_swUpsertMax]
        by_cases hm : e.1 ∈ sKeys acc
        · rw [if_pos hm]
          constructor
          · exact Or.inl
          · rintro (hx | rfl)
            · exact hx
            · exact hm
        · rw [if_neg hm]
          simp
      rw [this]
      simp [or_assoc, or_left_comm, eq_comm]

theorem nodup_sKeys_swInner :
    ∀ (l : List (String × String × ℚ)) (acc : List (String × String × ℚ)),
      (sKeys acc).Nodup → (sKeys (swInner l acc)).Nodup
  | [], _, h => h
  | e :: rest, acc, h =>
      nodup_sKeys_swInner rest _ (nodup_sKeys_swUpsertMax _ _ _ _ h)

theorem occScores_cons_self (e : String × String × ℚ) (l : List (String × String × ℚ))
    (x : String) (hx : e.1 = x) :
    occScores (e :: l) x = e.2.2 :: occScores l x := by
  simp [occScores, List.filter_cons, hx]

theorem occScores_cons_other (e : String × String × ℚ) (l : List (String × String × ℚ))
    (x : String) (hx : ¬ e.1 = x) :
    occScores (e :: l) x = occScores l x := by
  simp [occScores, List.filter_cons, beq_eq_false_iff_ne.2 hx]

theorem foldMax_cons (a s : ℚ) (l : List ℚ) :
    foldMax a (s :: l) = foldMax (if s > a then s else a) l := rfl

theorem sLookup_swInner :
    ∀ (l : List (String × String × ℚ)) (acc : List (String × String × ℚ)) (x : String),
      (sLookup (swInner l acc) x).map (·.2) =
        match sLookup acc x with
        | some p => some (foldMax p.2 (occScores l x))
        | none =>
            match occScores l x with
            | [] => none
            | s0 :: rest => some (foldMax s0 rest)
  | [], acc, x => by
      cases h : sLookup acc x <;> simp [swInner, occScores, foldMax, h]
  | e :: rest, acc, x => by
      rw [swInner_cons, sLookup_swInner rest _ x]
      by_cases hx : e.1 = x
      · rw [occScores_cons_self e rest x hx]
        have hself := sLookup_swUpsertMax_self e.1 e.2.1 e.2.2 acc
        rw [hx] at hself
        rw [hx, hself]
        cases hacc : sLookup acc x with
        | none => rfl
        | some p =>
            show some (foldMax (if e.2.2 > p.2 then (e.2.1, e.2.2) else p).2
              (occScores rest x)) = some (foldMax p.2 (e.2.2 :: occScores rest x))
            rw [foldMax_cons]
            by_cases hs : e.2.2 > p.2
            · rw [if_pos hs, if_pos hs]
            · rw [if_neg hs, if_neg hs]
      · rw [occScores_cons_other e rest x hx,
          sLookup_swUpsertMax_other e.1 e.2.1 x e.2.2 acc (fun hh => hx hh.symm)]

theorem foldMax_mem : ∀ (l : List ℚ) (a : ℚ), foldMax a l ∈ a :: l
  | [], a => by simp [foldMax]
  | s :: t, a => by
      rw [foldMax_cons]
      by_cases hs : s > a
      · rw [if_pos hs]
        exact List.mem_cons_of_mem a (foldMax_mem t s)
      · rw [if_neg hs]
        have h := foldMax_mem t a
        rcases List.mem_cons.1 h with h1 | h1
        · rw [h1]
          exact List.mem_cons_self a (s :: t)
        · exact List.mem_cons_of_mem a (List.mem_cons_of_mem s h1)

theorem le_foldMax_init : ∀ (l : List ℚ) (a : ℚ), a ≤ foldMax a l
  | [], a => le_refl a
  | s :: t, a => by
      rw [foldMax_cons]
      have hba : a ≤ (if s > a then s else a) := by
        by_cases hs : s > a
        · rw [if_pos hs]; linarith
        · rw [if_neg hs]
      exact le_trans hba (le_foldMax_init t _)

theorem le_foldMax_mem : ∀ (l : List ℚ) (a x : ℚ), x ∈ l → x ≤ foldMax a l
  | [], _, _, h => absurd h (List.not_mem_nil _)
  | s :: t, a, x, h => by
      rw [foldMax_cons]
      rcases List.mem_cons.1 h with rfl | h1
      · have hbs : x ≤ (if x > a then x else a) := by
          by_cases hs : x > a
          · rw [if_pos hs]
          · rw [if_neg hs]; linarith [not_lt.1 hs]
        exact le_trans hbs (le_foldMax_init t _)
      · exact le_foldMax_mem t _ x h1

theorem le_foldMax (l : List ℚ) (a x : ℚ) (h : x ∈ a :: l) : x ≤ foldMax a l := by
  rcases List.mem_cons.1 h with rfl | h1
  · exact le_foldMax_init l x
  · exact le_foldMax_mem l a x h1

theorem swLoop_eq_swInner (st : BM25Search) (top_k : ℕ) :
    ∀ (qs : List String) (acc : List (String × String × ℚ)),
      swLoop st top_k qs acc =
        swInner ((qs.map (fun q => st.search q (top_k * 2))).join) acc
  | [], acc => rfl
  | q :: rest, acc => by
      rw [swLoop, swLoop_eq_swInner st top_k rest _]
      rw [show (((q :: rest).map (fun q => st.search q (top_k * 2))).join) =
            st.search q (top_k * 2) ++
              ((rest.map (fun q => st.search q (top_k * 2))).join) from rfl]
      rw [swInner_append]

/-- **C8.** `search_with_expansion` runs the per-variant searches (at depth
`top_k * 2`), merges them by doc id keeping, for every document, the
*maximum* score any variant gave it (a score only ever appears, never a sum),
and returns the merge sorted by that score descending, truncated to
`top_k`. -/
theorem bm25_search_with_expansion_keeps_max (st : BM25Search) (queries : List String)
    (top_k : ℕ) :
    st.search_with_expansion queries top_k =
      ((swLoop st top_k queries []).insertionSort (fun a b => b.2.2 ≤ a.2.2)).take top_k ∧
    ((swLoop st top_k queries []).map (·.1)).Nodup ∧
    (∀ d, d ∈ (swLoop st top_k queries []).map (·.1) ↔
      d ∈ ((queries.map (fun q => st.search q (top_k * 2))).join).map (·.1)) ∧
    (∀ e ∈ swLoop st top_k queries [],
      e.2.2 ∈ occScores ((queries.map (fun q => st.search q (top_k * 2))).join) e.1 ∧
      ∀ s ∈ occScores ((queries.map (fun q => st.search q (top_k * 2))).join) e.1,
        s ≤ e.2.2) ∧
    (st.search_with_expansion queries top_k).Sorted (fun a b => b.2.2 ≤ a.2.2) ∧
    (st.search_with_expansion queries top_k).length ≤ top_k := by
  have hloop := swLoop_eq_swInner st top_k queries []
  have hnodup : ((swLoop st top_k queries []).map (·.1)).Nodup := by
    rw [hloop]
    exact nodup_sKeys_swInner _ _ List.nodup_nil
  refine ⟨rfl, hnodup, ?_, ?_, ?_, ?_⟩
  · intro d
    rw [hloop]
    have := mem_sKeys_swInner ((queries.map (fun q => st.search q (top_k * 2))).join) [] d
    simpa [sKeys] using this
  · intro e he
    have hfind := assoc_find?_of_mem (swLoop st top_k queries []) e.1 e.2
      (by simpa [sKeys] using hnodup) (by simpa using he)
    have hlk : sLookup (swLoop st top_k queries []) e.1 = some e.2 := by
      rw [sLookup, hfind]
      rfl
    have hval := sLookup_swInner ((queries.map (fun q => st.search q (top_k * 2))).join)
      [] e.1
    rw [← hloop, hlk] at hval
    have hnil : sLookup ([] : List (String × String × ℚ)) e.1 = none := rfl
    rw [hnil] at hval
    cases hocc : occScores ((queries.map (fun q => st.search q (top_k * 2))).join) e.1 with
    | nil => rw [hocc] at hval; cases hval
    | cons s0 os =>
        rw [hocc] at hval
        simp only [Option.map_some] at hval
        have hv : e.2.2 = foldMax s0 os := by
          exact Option.some_injective _ hval
        constructor
        · rw [hv]
          exact foldMax_mem os s0
        · intro s hs
          rw [hv]
          exact le_foldMax os s0 s hs
  · haveI : IsTotal (String × String × ℚ) (fun a b => b.2.2 ≤ a.2.2) :=
      ⟨fun a b => le_total b.2.2 a.2.2⟩
    haveI : IsTrans (String × String × ℚ) (fun a b => b.2.2 ≤ a.2.2) :=
      ⟨fun _ _ _ hab hbc => le_trans hbc hab⟩
    have hsorted := List.sorted_insertionSort (fun (a b : String × String × ℚ) =>
      b.2.2 ≤ a.2.2) (swLoop st top_k queries [])
    exact List.Pairwise.sublist (List.take_sublist _ _) hsorted
  · rw [BM25Search.search_with_expansion]
    exact List.length_take_le _ _

/-- Witness for C8 on a one-document index and two query variants. -/
theorem bm25_search_with_expansion_keeps_max_witness :
    (("d1" ∈ (swLoop (BM25Search.init.index_documents (fun _ => 1)
        [{ id := "d1", candidate_id := "c1", content := "python dev" }]) 5
        ["python", "dev"] []).map (·.1) ↔
      "d1" ∈ ((["python", "dev"].map (fun q =>
        (BM25Search.init.index_documents (fun _ => 1)
          [{ id := "d1", candidate_id := "c1", content := "python dev" }]).search q
          (5 * 2))).join).map (·.1)) ∧
    ((BM25Search.init.index_documents (fun _ => 1)
        [{ id := "d1", candidate_id := "c1", content := "python dev" }]).search_with_expansion
        ["python", "dev"] 5).length ≤ 5) :=
  ⟨(bm25_search_with_expansion_keeps_max (BM25Search.init.index_documents (fun _ => 1)
      [{ id := "d1", candidate_id := "c1", content := "python dev" }])
      ["python", "dev"] 5).2.2.1 "d1",
   (bm25_search_with_expansion_keeps_max (BM25Search.init.index_documents (fun _ => 1)
      [{ id := "d1", candidate_id := "c1", content := "python dev" }])
      ["python", "dev"] 5).2.2.2.2.2⟩

/-! ### Python string lemmas -/

theorem pySpaceChar_pyLowerChar (c : Char) :
    pySpaceChar (pyLowerChar c) = pySpaceChar c := by
  unfold pyLowerChar
  split <;> rfl

theorem dropWhile_pyLowerL (l : List Char) :
    (pyLowerL l).dropWhile pySpaceChar = pyLowerL (l.dropWhile pySpaceChar) := by
  induction l with
  | nil => rfl
  | cons c t ih =>
      show (pyLowerChar c :: pyLowerL t).dropWhile pySpaceChar = _
      rw [List.dropWhile_cons, List.dropWhile_cons, pySpaceChar_pyLowerChar]
      cases hsp : pySpaceChar c with
      | true => simpa using ih
      | false => simp [pyLowerL]

theorem reverse_pyLowerL (l : List Char) :
    (pyLowerL l).reverse = pyLowerL l.reverse := by
  simp [pyLowerL, List.map_reverse]

theorem pyStripL_pyLowerL (l : List Char) :
    pyStripL (pyLowerL l) = pyLowerL (pyStripL l) := by
  rw [pyStripL, pyStripL, dropWhile_pyLowerL, reverse_pyLowerL, dropWhile_pyLowerL,
    reverse_pyLowerL]

theorem dW_head_false (p : Char → Bool) :
    ∀ (l : List Char) (c : Char) (t : List Char),
      l.dropWhile p = c :: t → p c = false
  | [], c, t, h => by cases h
  | a :: as, c, t, h => by
      rw [List.dropWhile_cons] at h
      by_cases pa : p a = true
      · rw [if_pos pa] at h
        exact dW_head_false p as c t h
      · rw [if_neg pa] at h
        cases h
        simpa using pa

theorem dropWhile_idem (p : Char → Bool) (l : List Char) :
    List.dropWhile p (List.dropWhile p l) = List.dropWhile p l := by
  rcases h : List.dropWhile p l with _ | ⟨c, t⟩
  · rfl
  · rw [List.dropWhile_cons, if_neg]
    rw [dW_head_false p l c t h]
    exact Bool.false_ne_true

theorem pyStripL_stripped (l : List Char) :
    List.dropWhile pySpaceChar (pyStripL l) = pyStripL l := by
  rcases hs : pyStripL l with _ | ⟨c, t⟩
  · rfl
  · have hsuf : List.dropWhile pySpaceChar (List.dropWhile pySpaceChar l).reverse <:+
        (List.dropWhile pySpaceChar l).reverse := List.dropWhile_suffix _
    have hpre : pyStripL l <+: List.dropWhile pySpaceChar l := by
      have h2 := List.reverse_prefix.2 hsuf
      rw [List.reverse_reverse] at h2
      exact h2
    rcases hpre with ⟨r, hr⟩
    rw [hs] at hr
    have hdw : List.dropWhile pySpaceChar l = c :: (t ++ r) := by
      rw [← hr]
      rfl
    have hc : pySpaceChar c = false := dW_head_false pySpaceChar l c (t ++ r) hdw
    rw [List.dropWhile_cons, if_neg]
    rw [hc]
    exact Bool.false_ne_true

theorem pyStripL_idem (l : List Char) : pyStripL (pyStripL l) = pyStripL l := by
  rw [pyStripL, pyStripL_stripped]
  rw [show (pyStripL l).reverse =
      List.dropWhile pySpaceChar (List.dropWhile pySpaceChar l).reverse from by
    rw [pyStripL, List.reverse_reverse]]
  rw [dropWhile_idem]
  rw [pyStripL]

theorem key_strip (q : String) :
    pyStripS (pyLowerS (pyStripS q)) = pyStripS (pyLowerS q) := by
  show (⟨pyStripL (pyLowerL (pyStripL q.data))⟩ : String) = ⟨pyStripL (pyLowerL q.data)⟩
  congr 1
  rw [pyStripL_pyLowerL, pyStripL_idem, ← pyStripL_pyLowerL]

/-! ### Query-expansion lemmas -/

theorem dedupQueries_key_nodup :
    ∀ (l seen : List String),
      ((dedupQueries l seen).map (fun a => pyStripS (pyLowerS a))).Nodup ∧
      ∀ s ∈ (dedupQueries l seen).map (fun a => pyStripS (pyLowerS a)), s ∉ seen
  | [], seen => by simp [dedupQueries]
  | q :: rest, seen => by
      by_cases hql : pyStripS (pyLowerS q) ∈ seen
      · rw [dedupQueries, if_pos hql]
        exact dedupQueries_key_nodup rest seen
      · rw [dedupQueries, if_neg hql]
        have ih := dedupQueries_key_nodup rest (pyStripS (pyLowerS q) :: seen)
        rw [List.map_cons]
        have hkey : pyStripS (pyLowerS (pyStripS q)) = pyStripS (pyLowerS q) := key_strip q
        constructor
        · rw [List.nodup_cons]
          constructor
          · rw [hkey]
            intro hmem
            exact (ih.2 _ hmem) (List.mem_cons_self _ _)
          · exact ih.1
        · intro s hs
          rcases List.mem_cons.1 hs with rfl | hs'
          · rw [hkey]
            exact hql
          · intro hseen
            exact (ih.2 s hs') (List.mem_cons_of_mem _ hseen)

/-- **C10.** For every oracle outcome (client missing, LLM success, LLM
failure), every query and every `max_expansions`, `expand_query` returns a
non-empty list headed by the stripped original query, pairwise distinct
under lowercasing-and-stripping, of length at most `max_expansions + 1`. -/
theorem expand_query_shape (o : ExpansionOracle) (query : String) (max_expansions : ℕ) :
    QueryExpander.expand_query o query max_expansions ≠ [] ∧
    (QueryExpander.expand_query o query max_expansions).head? = some (pyStripS query) ∧
    (QueryExpander.expand_query o query max_expansions).length ≤ max_expansions + 1 ∧
    (QueryExpander.expand_query o query max_expansions).Pairwise
      (fun a b => pyStripS (pyLowerS a) ≠ pyStripS (pyLowerS b)) := by
  set X := (if o.clientAvailable then
      match o.llmExpansions with
      | some exps => exps.take max_expansions
      | none => fallbackExpansion query
    else fallbackExpansion query) with hX
  have hd : QueryExpander.expand_query o query max_expansions =
      (pyStripS query ::
        dedupQueries X [pyStripS (pyLowerS query)]).take (max_expansions + 1) := by
    rw [QueryExpander.expand_query]
    rw [show [query] ++ X = query :: X from rfl]
    rw [dedupQueries, if_neg (List.not_mem_nil _)]
  have hpair : (pyStripS query ::
      dedupQueries X [pyStripS (pyLowerS query)]).Pairwise
      (fun a b => pyStripS (pyLowerS a) ≠ pyStripS (pyLowerS b)) := by
    have hfull := (dedupQueries_key_nodup (query :: X) []).1
    rw [dedupQueries, if_neg (List.not_mem_nil _)] at hfull
    exact List.pairwise_map.1 hfull
  rw [hd, List.take_succ_cons]
  refine ⟨by simp, rfl, ?_, ?_⟩
  · rw [List.length_cons]
    have := List.length_take_le max_expansions (dedupQueries X [pyStripS (pyLowerS query)])
    omega
  · rw [← List.take_succ_cons]
    exact List.Pairwise.sublist (List.take_sublist _ _) hpair

/-- **C6 (counterexample).** With the client available but the LLM raising,
`expand_query "senior"` degrades to the *rule-based* fallback
`["senior", "Sr.", "Experienced"]` — not to the singleton `["senior"]` the
claim demands. -/
theorem expand_query_failure_counterexample :
    QueryExpander.expand_query ⟨true, none⟩ "senior" 5 =
      ["senior", "Sr.", "Experienced"] ∧
    QueryExpander.expand_query ⟨true, none⟩ "senior" 5 ≠ ["senior"] :=
  ⟨by decide, by decide⟩

/-- **C6 (amended).** On LLM failure or client unavailability, `expand_query`
degrades to `[query]` *extended with the rule-based fallback expansions*,
deduplicated case-insensitively and truncated to `max_expansions + 1`; it
equals the singleton `[query.strip()]` exactly when the fallback rules
produce nothing. -/
theorem expand_query_failure_uses_rule_fallback (query : String) (m : ℕ)
    (llm : Option (List String)) :
    QueryExpander.expand_query ⟨true, none⟩ query m =
      (dedupQueries (query :: fallbackExpansion query) []).take (m + 1) ∧
    QueryExpander.expand_query ⟨false, llm⟩ query m =
      (dedupQueries (query :: fallbackExpansion query) []).take (m + 1) ∧
    (fallbackExpansion query = [] →
      QueryExpander.expand_query ⟨true, none⟩ query m = [pyStripS query]) := by
  refine ⟨rfl, rfl, ?_⟩
  intro hfb
  rw [QueryExpander.expand_query]
  rw [show ([query] ++ (if (true : Bool) then
      match (none : Option (List String)) with
      | some exps => exps.take m
      | none => fallbackExpansion query
    else fallbackExpansion query)) = query :: fallbackExpansion query from rfl]
  rw [hfb, dedupQueries, if_neg (List.not_mem_nil _), dedupQueries, List.take_succ_cons,
    List.take_nil]

/-- Witness for the amended C6: `"python"` triggers no fallback rule, so the
degraded expansion is exactly the singleton. -/
theorem expand_query_failure_uses_rule_fallback_witness :
    fallbackExpansion "python" = [] ∧
    QueryExpander.expand_query ⟨true, none⟩ "python" 5 = [pyStripS "python"] :=
  ⟨by decide,
    (expand_query_failure_uses_rule_fallback "python" 5 none).2.2 (by decide)⟩

/-! ### Layer-2 fallback (C4) -/

/-- **C4 (counterexample).** For a `KEYWORD`-mode request with
`min_experience_years = 0`, the Layer-2 request does *not* keep the original
search mode (it forces `HYBRID`) and maps the zero experience floor to
`None` rather than `Some 0`. -/
theorem layer2_keeps_mode_counterexample :
    (relaxedRequest { query := "python", search_type := SearchType.keyword, min_experience_years := some 0 }).search_type ≠
      ({ query := "python", search_type := SearchType.keyword, min_experience_years := some 0 } : SearchRequest).search_type ∧
    (relaxedRequest { query := "python", search_type := SearchType.keyword, min_experience_years := some 0 }).min_experience_years = none :=
  ⟨by decide, by decide⟩

/-- **C4 (amended).** The Layer-2 request keeps `query`, `top_k` and
`required_skills`, removes the location filter, multiplies a positive
`min_experience_years` by `0.7` (mapping `None` *and* `0` to `None`), and —
unlike the claim — forces `search_type = HYBRID`, forces query expansion on
and drops `keyword_query`.  A non-empty Layer 1 returns with an empty note;
a Layer-1-empty / Layer-2-non-empty run returns the Layer-2 results with
the non-empty relaxation note. -/
theorem layer2_relaxation_characterized {α : Type} (sf : SearchRequest → List α)
    (r : SearchRequest) :
    ((relaxedRequest r).search_type = SearchType.hybrid ∧
     (relaxedRequest r).expand_query = true ∧
     (relaxedRequest r).keyword_query = none ∧
     (relaxedRequest r).location = none ∧
     (relaxedRequest r).query = r.query ∧
     (relaxedRequest r).top_k = r.top_k ∧
     (relaxedRequest r).required_skills = r.required_skills) ∧
    (r.min_experience_years = none → (relaxedRequest r).min_experience_years = none) ∧
    (r.min_experience_years = some 0 → (relaxedRequest r).min_experience_years = none) ∧
    (∀ x : ℚ, r.min_experience_years = some x → 0 < x →
      (relaxedRequest r).min_experience_years = some (x * (7 / 10))) ∧
    (sf r ≠ [] → RAGChain.search_with_fallback sf r = (sf r, "")) ∧
    (sf r = [] → sf (relaxedRequest r) ≠ [] →
      RAGChain.search_with_fallback sf r = (sf (relaxedRequest r), layer2Note) ∧
      layer2Note ≠ "") := by
  refine ⟨⟨rfl, rfl, rfl, rfl, rfl, rfl, rfl⟩, ?_, ?_, ?_, ?_, ?_⟩
  · intro h
    simp [relaxedRequest, h]
  · intro h
    simp [relaxedRequest, h]
  · intro x hx hpos
    simp only [relaxedRequest, hx]
    rw [if_neg (ne_of_gt hpos)]
    have hmax : max (0 : ℚ) (x * (7 / 10)) = x * (7 / 10) :=
      max_eq_right (by nlinarith)
    rw [hmax]
  · intro hne
    have hE : (sf r).isEmpty = false := by
      cases h : sf r with
      | nil => exact absurd h hne
      | cons a t => rfl
    simp [RAGChain.search_with_fallback, hE]
  · intro h1 h2
    have hE1 : (sf r).isEmpty = true := by
      rw [h1]
      rfl
    have hE2 : (sf (relaxedRequest r)).isEmpty = false := by
      cases h : sf (relaxedRequest r) with
      | nil => exact absurd h h2
      | cons a t => rfl
    constructor
    · simp [RAGChain.search_with_fallback, hE1, hE2]
    · decide

/-- Witness for the amended C4: a default (hybrid) request that Layer 1
satisfies comes back with an empty provenance note. -/
theorem layer2_relaxation_characterized_witness :
    ((fun r : SearchRequest =>
        if r.search_type = SearchType.hybrid then ["hit"] else []) { query := "q" } ≠ []) ∧
    RAGChain.search_with_fallback
      (fun r : SearchRequest =>
        if r.search_type = SearchType.hybrid then ["hit"] else [])
      { query := "q" } =
      ((fun r : SearchRequest =>
        if r.search_type = SearchType.hybrid then ["hit"] else []) { query := "q" }, "") :=
  ⟨by decide,
    (layer2_relaxation_characterized
      (fun r : SearchRequest =>
        if r.search_type = SearchType.hybrid then ["hit"] else [])
      { query := "q" }).2.2.2.2.1 (by decide)⟩

/-! ### Cached search (C5) -/

theorem cacheGet_cacheSet_hit {α : Type} (c : ResultCache α) (k : SearchRequest)
    (v : List α) (now1 now2 : ℕ) (h : now2 < now1 + 300) :
    cacheGet (cacheSet c k v now1) k now2 = some v := by
  rw [cacheSet, cacheGet]
  simp [List.find?, h]

/-- **C5 (counterexample).** A repeat of a structurally identical request
within the TTL is served from the cache without invoking the pipeline, but
the returned response is *not* identical to the first one: the cached
response carries `expanded_queries = []` while the fresh one carries the
actual expansion list. -/
theorem cache_hit_response_not_identical_counterexample :
    ((HybridSearchEngine.search (fun _ _ => ["r1"]) (fun q _ => [q]) 5
        ((HybridSearchEngine.search (fun _ _ => ["r1"]) (fun q _ => [q]) 5
          ([] : ResultCache String) { query := "q" } 0).2.1) { query := "q" } 10).2.2 =
      false) ∧
    (HybridSearchEngine.search (fun _ _ => ["r1"]) (fun q _ => [q]) 5
        ((HybridSearchEngine.search (fun _ _ => ["r1"]) (fun q _ => [q]) 5
          ([] : ResultCache String) { query := "q" } 0).2.1) { query := "q" } 10).1 ≠
      (HybridSearchEngine.search (fun _ _ => ["r1"]) (fun q _ => [q]) 5
        ([] : ResultCache String) { query := "q" } 0).1 :=
  ⟨by decide, by decide⟩

/-- **C5 (amended).** After a cache miss at `now1`, a structurally identical
request strictly within the 300-second TTL behaves as follows.  If the first
run produced at least one result, the repeat does not invoke the pipeline
again, leaves the cache unchanged, and returns the *same results list* as
the first response — but with `expanded_queries = []` and `total_results`
equal to the truncated result count, so the full response object is not
identical.  If the first run produced no results, the cached empty list is
falsy for `if cached_results:` and the repeat runs the pipeline again. -/
theorem cache_hit_skips_pipeline_and_preserves_results {α : Type}
    (pipeline : SearchRequest → List String → List α)
    (expander : String → ℕ → List String) (maxExp : ℕ)
    (cache : ResultCache α) (request : SearchRequest) (now1 now2 : ℕ)
    (hmiss : cacheGet cache request now1 = none)
    (hwin : now2 < now1 + 300) :
    (HybridSearchEngine.search pipeline expander maxExp cache request now1).2.2 = true ∧
    ((HybridSearchEngine.search pipeline expander maxExp cache request now1).1.results ≠ [] →
      (HybridSearchEngine.search pipeline expander maxExp
        (HybridSearchEngine.search pipeline expander maxExp cache request now1).2.1
        request now2).2.2 = false ∧
      (HybridSearchEngine.search pipeline expander maxExp
        (HybridSearchEngine.search pipeline expander maxExp cache request now1).2.1
        request now2).1.results =
        (HybridSearchEngine.search pipeline expander maxExp cache request now1).1.results ∧
      (HybridSearchEngine.search pipeline expander maxExp
        (HybridSearchEngine.search pipeline expander maxExp cache request now1).2.1
        request now2).1.expanded_queries = [] ∧
      (HybridSearchEngine.search pipeline expander maxExp
        (HybridSearchEngine.search pipeline expander maxExp cache request now1).2.1
        request now2).1.total_results =
        (HybridSearchEngine.search pipeline expander maxExp cache request
          now1).1.results.length ∧
      (HybridSearchEngine.search pipeline expander maxExp
        (HybridSearchEngine.search pipeline expander maxExp cache request now1).2.1
        request now2).2.1 =
        (HybridSearchEngine.search pipeline expander maxExp cache request now1).2.1) ∧
    ((HybridSearchEngine.search pipeline expander maxExp cache request now1).1.results = [] →
      (HybridSearchEngine.search pipeline expander maxExp
        (HybridSearchEngine.search pipeline expander maxExp cache request now1).2.1
        request now2).2.2 = true) := by
  have hfr : (HybridSearchEngine.search pipeline expander maxExp cache request now1).1.results =
      (pipeline request (if request.expand_query then expander request.query maxExp
        else [request.query])).take request.top_k := by
    rw [HybridSearchEngine.search, hmiss]
    rfl
  have hst : (HybridSearchEngine.search pipeline expander maxExp cache request now1).2.1 =
      cacheSet cache request
        ((pipeline request (if request.expand_query then expander request.query maxExp
          else [request.query])).take request.top_k) now1 := by
    rw [HybridSearchEngine.search, hmiss]
    rfl
  have hb1 : (HybridSearchEngine.search pipeline expander maxExp cache request now1).2.2 =
      true := by
    rw [HybridSearchEngine.search, hmiss]
    rfl
  have hget := cacheGet_cacheSet_hit cache request
    ((pipeline request (if request.expand_query then expander request.query maxExp
      else [request.query])).take request.top_k) now1 now2 hwin
  refine ⟨hb1, ?_, ?_⟩
  · intro hne
    rw [hfr] at hne
    have hvE : ((pipeline request (if request.expand_query then expander request.query maxExp
        else [request.query])).take request.top_k).isEmpty = false := by
      cases h : (pipeline request (if request.expand_query then expander request.query maxExp
          else [request.query])).take request.top_k with
      | nil => exact absurd h hne
      | cons a t => rfl
    have hsec : HybridSearchEngine.search pipeline expander maxExp
        (cacheSet cache request
          ((pipeline request (if request.expand_query then expander request.query maxExp
            else [request.query])).take request.top_k) now1) request now2 =
        ({ query := request.query, expanded_queries := [],
           search_type := request.search_type,
           total_results := ((pipeline request (if request.expand_query
             then expander request.query maxExp else [request.query])).take
               request.top_k).length,
           results := (pipeline request (if request.expand_query
             then expander request.query maxExp else [request.query])).take
               request.top_k },
         cacheSet cache request
          ((pipeline request (if request.expand_query then expander request.query maxExp
            else [request.query])).take request.top_k) now1, false) := by
      rw [HybridSearchEngine.search, hget]
      simp only [Option.getD_some, hvE]
      rfl
    refine ⟨?_, ?_, ?_, ?_, ?_⟩
    · rw [hst, hsec]
    · rw [hst, hsec, hfr]
    · rw [hst, hsec]
    · rw [hst, hsec, hfr]
    · rw [hst, hsec]
  · intro hempty
    rw [hfr] at hempty
    rw [hst, HybridSearchEngine.search, hget, hempty]
    rfl

/-- Witness for the amended C5 at a concrete request and a pipeline that
returns one result. -/
theorem cache_hit_skips_pipeline_and_preserves_results_witness :
    (cacheGet ([] : ResultCache String) { query := "q" } 0 = none ∧ 10 < 0 + 300 ∧
      (HybridSearchEngine.search (fun _ _ => ["r1"]) (fun q _ => [q]) 5
        ([] : ResultCache String) { query := "q" } 0).1.results ≠ []) ∧
    (HybridSearchEngine.search (fun _ _ => ["r1"]) (fun q _ => [q]) 5
      ((HybridSearchEngine.search (fun _ _ => ["r1"]) (fun q _ => [q]) 5
        ([] : ResultCache String) { query := "q" } 0).2.1) { query := "q" } 10).2.2 =
      false :=
  ⟨⟨rfl, by decide, by decide⟩,
    ((cache_hit_skips_pipeline_and_preserves_results (fun _ _ => ["r1"]) (fun q _ => [q]) 5
      ([] : ResultCache String) { query := "q" } 0 10 rfl (by decide)).2.1
      (by decide)).1⟩

end CVScreenAI
